import Mathlib

/-!
Shallow embedding of the workflow graph engine of `node-banana`
(`src/store/workflowStore.ts`, `src/components/WorkflowCanvas.tsx`,
`src/types/index.ts`), and proofs of the specification claims about it.

Conventions of the embedding:
* JavaScript strings are Lean `String`s; `x ?? / || undefined/null` optional
  values are `Option`s.  A JS string used in boolean position is truthy iff it
  is neither `undefined`/`null` nor `""`; this is `strTruthy` below.
* JS numbers used as counters / indices are `Nat` or `Int` (the id counters are
  always non-negative integers in the source; `historyIndex` can be `-1` and is
  an `Int`).  Canvas positions are modelled as pairs of `Int`.
* Mutation of the zustand store is explicit state passing on `WFState`.
* Asynchronous `fetch` calls to the generation backend are a pure oracle
  (`Backend`) passed to the scheduler; the scheduler additionally returns a
  `RunTrace` recording the requests it issued, the nodes it dispatched and the
  status values it wrote, so that claims about "no request issued" or
  "status goes loading then terminal" can be stated.
-/

namespace NodeBanana

/-- JS truthiness of a `string | null | undefined` value: falsy iff absent or
empty. -/
def strTruthy : Option String → Bool
  | none => false
  | some s => s ≠ ""

/-- Node types, from `NodeType` in `src/types/index.ts`. -/
inductive NodeType
  | imageInput | annotation | prompt | nanoBanana | llmGenerate | splitGrid | output
  deriving DecidableEq, Repr

/-- The literal string of each node type, as used in ids `{type}-{n}`. -/
def NodeType.name : NodeType → String
  | .imageInput => "imageInput"
  | NodeType.annotation => "annot" ++ "ation"
  | .prompt => "prompt"
  | .nanoBanana => "nanoBanana"
  | .llmGenerate => "llmGenerate"
  | .splitGrid => "splitGrid"
  | .output => "output"

/-- `childNodeIds` entries of a split-grid node (`SplitGridNodeData`). -/
structure ChildSet where
  imageInput : String
  nanoBanana : String
  prompt : String
  deriving DecidableEq, Repr

/-- Flat record carrying the union of the per-type `data` payloads
(`WorkflowNodeData` in `src/types/index.ts`).  The TS source stores a tagged
union of open records and merges partial updates shallowly; each update site in
the source writes a fixed set of fields, which we model as explicit field
updates on this record.  String-or-null fields are `Option String`. -/
structure NodeData where
  image : Option String := none
  filename : Option String := none
  dimensions : Option (Nat × Nat) := none
  sourceImage : Option String := none
  outputImage : Option String := none
  prompt : String := ""
  inputImages : List String := []
  inputPrompt : Option String := none
  outputText : Option String := none
  imageHistory : List String := []
  historyIndex : Option Nat := none
  status : String := "idle"
  error : Option String := none
  aspectRatio : String := "1:1"
  resolution : String := "1K"
  model : String := "nano-banana-pro"
  useGoogleSearch : Bool := false
  provider : String := "google"
  temperature : Int := 0
  maxTokens : Nat := 0
  defaultPrompt : String := ""
  childNodeIds : List ChildSet := []
  gridRows : Nat := 2
  gridCols : Nat := 3
  isConfigured : Bool := false
  targetCount : Nat := 6
  deriving DecidableEq, Repr

/-- Canvas position (JS floats, modelled as integers; only additions occur). -/
structure Pos where
  x : Int
  y : Int
  deriving DecidableEq, Repr

instance : Add Pos := ⟨fun a b => ⟨a.x + b.x, a.y + b.y⟩⟩

/-- A workflow node (`WorkflowNode`). -/
structure WNode where
  id : String
  type : NodeType
  position : Pos
  data : NodeData
  selected : Bool := false
  groupId : Option String := none
  width : Nat := 0
  height : Nat := 0
  deriving DecidableEq, Repr

/-- Edge `data` payload (`WorkflowEdgeData`): only `hasPause?`. -/
structure EdgeData where
  hasPause : Option Bool := none
  deriving DecidableEq, Repr

/-- A workflow edge (`WorkflowEdge`); `data` itself is optional in TS. -/
structure WEdge where
  id : String
  source : String
  target : String
  sourceHandle : Option String := none
  targetHandle : Option String := none
  etype : Option String := none
  data : Option EdgeData := none
  deriving DecidableEq, Repr

/-- Truthiness of `edge.data?.hasPause`. -/
def WEdge.pauseTruthy (e : WEdge) : Bool :=
  match e.data with
  | none => false
  | some d => d.hasPause.getD false

/-- Node group (`NodeGroup`). -/
structure Group where
  id : String
  name : String
  color : String
  position : Pos
  size : Pos
  deriving DecidableEq, Repr

/-- History snapshot (`HistoryState`): `(nodes, edges, groups)`. -/
structure HistoryState where
  nodes : List WNode
  edges : List WEdge
  groups : List (String × Group)
  deriving DecidableEq, Repr

/-- Clipboard payload (`ClipboardData`). -/
structure ClipboardData where
  nodes : List WNode
  edges : List WEdge
  deriving DecidableEq, Repr

/-! ## Decimal rendering of the id counters

JS template interpolation `${n}` renders a non-negative integer in decimal.
`natStr` is that decimal rendering, built from `Nat.digits` so that the usual
Mathlib lemmas apply. -/

/-- Base-10 digits, least significant first, with explicit fuel so that the
kernel can evaluate it (`natDigits_eq_digits` identifies it with
`Nat.digits 10`). -/
def natDigitsAux : Nat → Nat → List Nat
  | 0, _ => []
  | _, 0 => []
  | fuel + 1, n + 1 => (n + 1) % 10 :: natDigitsAux fuel ((n + 1) / 10)

/-- Base-10 digits of `n`, least significant first. -/
def natDigits (n : Nat) : List Nat :=
  natDigitsAux n n

/-- Decimal string of a natural number (model of JS `${n}` for the counters). -/
def natStr (n : Nat) : String :=
  if n = 0 then "0" else ⟨((natDigits n).reverse.map Nat.digitChar)⟩

/-- The id `"{type}-{n}"` produced by `generateUniqueNodeId` / `pasteNodes`. -/
def mkNodeId (t : NodeType) (n : Nat) : String :=
  t.name ++ "-" ++ natStr n

/-! ## The id-suffix regex

`NODE_ID_SUFFIX_REGEX = /^[a-z]+(?:Grid)?-(\d+)$/i` matches exactly the strings
consisting of one or more ASCII letters (case-insensitive; the `(?:Grid)?`
group adds nothing to the matched language), a `-`, and one or more decimal
digits; the capture is the digit block, consumed by `parseInt(·, 10)`. -/

/-- ASCII letter (what `[a-z]` matches under the `i` flag). -/
def isAsciiLetter (c : Char) : Bool :=
  ('a' ≤ c && c ≤ 'z') || ('A' ≤ c && c ≤ 'Z')

/-- ASCII decimal digit (`\d`). -/
def isDigit10 (c : Char) : Bool :=
  '0' ≤ c && c ≤ '9'

/-- `parseInt(s, 10)` on a block of decimal digits. -/
def parseDigits (l : List Char) : Nat :=
  l.foldl (fun a c => 10 * a + (c.toNat - '0'.toNat)) 0

/-- Model of `id.match(NODE_ID_SUFFIX_REGEX)` followed by
`parseInt(match[1], 10)`: returns the numeric suffix when the id has the shape
`letters "-" digits`. -/
def matchSuffix (s : String) : Option Nat :=
  let cs := s.data
  let letters := cs.takeWhile isAsciiLetter
  let rest := cs.dropWhile isAsciiLetter
  if letters.isEmpty then none
  else
    match rest with
    | '-' :: ds =>
      if ds ≠ [] && ds.all isDigit10 then some (parseDigits ds) else none
    | _ => none

/-- `findMaxNodeSuffix` from `workflowStore.ts`. -/
def findMaxNodeSuffix (nodes : List WNode) : Nat :=
  nodes.foldl
    (fun mx nd =>
      match matchSuffix nd.id with
      | some v => max mx v
      | none => mx)
    0

/-- `generateUniqueNodeId`: computes the fresh suffix and the updated module
counter.  Returns `(id, newCounter)`. -/
def generateUniqueNodeId (t : NodeType) (nodes : List WNode) (counter : Nat) :
    String × Nat :=
  let maxSuffix := findMaxNodeSuffix nodes
  let startingSuffix := max (max (counter + 1) (maxSuffix + 1)) 1
  (mkNodeId t startingSuffix, startingSuffix)

/-- `deduplicateWorkflowNodes`: keep the first occurrence of each id. -/
def deduplicateWorkflowNodes (nodes : List WNode) : List WNode :=
  (nodes.foldl
    (fun (acc : List String × List WNode) nd =>
      if nd.id ∈ acc.1 then acc else (nd.id :: acc.1, acc.2 ++ [nd]))
    ([], [])).2

/-! ## Store state

One record holding the zustand store fields the engine uses, together with the
module-level counters `nodeIdCounter` / `groupIdCounter` (the source keeps them
as module globals next to the store; §9 of the spec asks reimplementations to
make them explicit state, which the embedding does). -/

structure WFState where
  nodes : List WNode := []
  edges : List WEdge := []
  groups : List (String × Group) := []
  clipboard : Option ClipboardData := none
  historyStack : List HistoryState := []
  historyIndex : Int := -1
  nodeIdCounter : Nat := 0
  groupIdCounter : Nat := 0
  isRunning : Bool := false
  currentNodeId : Option String := none
  pausedAtNodeId : Option String := none
  generationsPath : Option String := none
  globalImageHistory : List (String × String) := []
  hasUnsavedChanges : Bool := false
  edgeStyle : String := "curved"
  workflowName : Option String := none
  deriving DecidableEq, Repr

/-- The workflow file format (`WorkflowFile`). -/
structure WorkflowFile where
  name : String
  nodes : List WNode
  edges : List WEdge
  edgeStyle : Option String := none
  groups : Option (List (String × Group)) := none
  deriving DecidableEq, Repr

/-! ## Graph store operations (`workflowStore.ts`) -/

/-- `saveToHistory`. -/
def saveToHistory (s : WFState) : WFState :=
  let snap : HistoryState := ⟨s.nodes, s.edges, s.groups⟩
  -- `historyStack.slice(0, historyIndex + 1)`; the index is ≥ -1 whenever this
  -- runs, so the JS slice bound `historyIndex + 1` is never negative.
  let newStack := s.historyStack.take (s.historyIndex + 1).toNat ++ [snap]
  let newStack := if newStack.length > 50 then newStack.drop 1 else newStack
  { s with historyStack := newStack, historyIndex := (newStack.length : Int) - 1 }

/-- `undo`.  The out-of-range branch (history index pointing past the stack)
cannot arise from the store's own operations; the JS source would read
`undefined` there, and the model leaves the graph untouched. -/
def undo (s : WFState) : WFState :=
  if s.historyIndex > 0 then
    let newIndex := s.historyIndex - 1
    match s.historyStack.get? newIndex.toNat with
    | some h =>
      { s with nodes := h.nodes, edges := h.edges, groups := h.groups,
               historyIndex := newIndex, hasUnsavedChanges := true }
    | none => { s with historyIndex := newIndex, hasUnsavedChanges := true }
  else s

/-- `redo`. -/
def redo (s : WFState) : WFState :=
  if s.historyIndex < (s.historyStack.length : Int) - 1 then
    let newIndex := s.historyIndex + 1
    match s.historyStack.get? newIndex.toNat with
    | some h =>
      { s with nodes := h.nodes, edges := h.edges, groups := h.groups,
               historyIndex := newIndex, hasUnsavedChanges := true }
    | none => { s with historyIndex := newIndex, hasUnsavedChanges := true }
  else s

/-- Default payload per node type (`createDefaultNodeData`). -/
def createDefaultNodeData : NodeType → NodeData
  | .imageInput => {}
  | NodeType.annotation => {}
  | .prompt => { prompt := "" }
  | .nanoBanana =>
    { inputImages := [], inputPrompt := none, outputImage := none,
      aspectRatio := "1:1", resolution := "1K", model := "nano-banana-pro",
      useGoogleSearch := false, status := "idle", error := none }
  | .llmGenerate =>
    { inputPrompt := none, outputText := none, provider := "google",
      model := "gemini-2.5-flash", temperature := 0, maxTokens := 8192,
      status := "idle", error := none }
  | .splitGrid =>
    { sourceImage := none, targetCount := 6, defaultPrompt := "",
      childNodeIds := [], gridRows := 2, gridCols := 3, isConfigured := false,
      status := "idle", error := none }
  | .output => {}

/-- Default dimensions per node type (`addNode`). -/
def defaultDimensions : NodeType → Nat × Nat
  | .imageInput => (300, 280)
  | NodeType.annotation => (300, 280)
  | .prompt => (320, 220)
  | .nanoBanana => (300, 300)
  | .llmGenerate => (320, 360)
  | .splitGrid => (300, 320)
  | .output => (320, 320)

/-- `addNode(type, position)`; returns the allocated id and the new state. -/
def addNode (t : NodeType) (position : Pos) (s : WFState) : String × WFState :=
  let (id, counter) := generateUniqueNodeId t s.nodes s.nodeIdCounter
  let (w, h) := defaultDimensions t
  let newNode : WNode :=
    { id := id, type := t, position := position,
      data := createDefaultNodeData t, width := w, height := h }
  (id, { s with nodes := s.nodes ++ [newNode], nodeIdCounter := counter,
                hasUnsavedChanges := true })

/-- `removeNode(nodeId)`. -/
def removeNode (nodeId : String) (s : WFState) : WFState :=
  { s with
    nodes := s.nodes.filter (fun n => n.id ≠ nodeId),
    edges := s.edges.filter (fun e => e.source ≠ nodeId && e.target ≠ nodeId),
    hasUnsavedChanges := true }

/-- A React Flow `Connection`. -/
structure Connection where
  source : String
  target : String
  sourceHandle : Option String := none
  targetHandle : Option String := none
  deriving DecidableEq, Repr

/-- `connection.sourceHandle || "default"` (falsy handles become `default`). -/
def handleOrDefault (h : Option String) : String :=
  match h with
  | some s => if s = "" then "default" else s
  | none => "default"

/-- The deterministic edge id template of `onConnect` / `addEdgeWithType`. -/
def edgeIdOf (source target : String) (sh th : Option String) : String :=
  "edge-" ++ source ++ "-" ++ target ++ "-" ++ handleOrDefault sh ++ "-" ++
    handleOrDefault th

/-- Modelled from the spec: `addEdge` comes from the `@xyflow/react` dependency,
whose source is not part of this repository.  Per the spec (§4.1), "duplicate
connect attempts between the same handles collapse rather than duplicate": the
library ignores the insertion when an edge with the same
`(source, target, sourceHandle, targetHandle)` already exists (null/empty
handles compare as absent), and also ignores connections with a falsy source or
target. -/
def addEdge (e : WEdge) (edges : List WEdge) : List WEdge :=
  if e.source = "" || e.target = "" then edges
  else if edges.any (fun el =>
      el.source == e.source && el.target == e.target &&
      (el.sourceHandle == e.sourceHandle ||
        (!strTruthy el.sourceHandle && !strTruthy e.sourceHandle)) &&
      (el.targetHandle == e.targetHandle ||
        (!strTruthy el.targetHandle && !strTruthy e.targetHandle))) then edges
  else edges ++ [e]

/-- `onConnect(connection)` (the store method: insert with the deterministic
id; handle-type validation lives in the canvas wrapper `handleConnect`). -/
def onConnect (c : Connection) (s : WFState) : WFState :=
  let e : WEdge :=
    { id := edgeIdOf c.source c.target c.sourceHandle c.targetHandle,
      source := c.source, target := c.target,
      sourceHandle := c.sourceHandle, targetHandle := c.targetHandle }
  { s with edges := addEdge e s.edges, hasUnsavedChanges := true }

/-- `toggleEdgePause(edgeId)`. -/
def toggleEdgePause (edgeId : String) (s : WFState) : WFState :=
  { s with
    edges := s.edges.map (fun e =>
      if e.id == edgeId then
        { e with data := some { hasPause := some (!e.pauseTruthy) } }
      else e),
    hasUnsavedChanges := true }

/-- A `select`-type `NodeChange` applied through `onNodesChange`
(`applyNodeChanges` sets `selected` on the named node). -/
def selectNode (nodeId : String) (val : Bool) (s : WFState) : WFState :=
  { s with nodes := s.nodes.map (fun n =>
      if n.id == nodeId then { n with selected := val } else n) }

/-- `copySelectedNodes`. -/
def copySelectedNodes (s : WFState) : WFState :=
  let selectedNodes := s.nodes.filter (fun n => n.selected)
  if selectedNodes.isEmpty then s
  else
    let selectedIds := selectedNodes.map (·.id)
    let connectedEdges := s.edges.filter (fun e =>
      e.source ∈ selectedIds && e.target ∈ selectedIds)
    { s with clipboard := some ⟨selectedNodes, connectedEdges⟩ }

/-- The old-id → new-id mapping `pasteNodes` builds (`${node.type}-${++nodeIdCounter}`
for each clipboard node, in order). -/
def pasteIdMapping (clipNodes : List WNode) (counter : Nat) :
    List (String × String) :=
  clipNodes.enum.map (fun (i, nd) => (nd.id, mkNodeId nd.type (counter + i + 1)))

/-- Lookup in the paste mapping; a miss is impossible for clipboard edges (both
endpoints are clipboard nodes) — the JS non-null assertion would yield
`undefined` there. -/
def pasteLookup (m : List (String × String)) (id : String) : String :=
  match m.find? (fun p => p.1 == id) with
  | some p => p.2
  | none => "undefined"

/-- `pasteNodes(offset)`. -/
def pasteNodes (offset : Pos) (s : WFState) : WFState :=
  match s.clipboard with
  | none => s
  | some clip =>
    if clip.nodes.isEmpty then s
    else
      let mapping := pasteIdMapping clip.nodes s.nodeIdCounter
      let counter' := s.nodeIdCounter + clip.nodes.length
      let newNodes := clip.nodes.map (fun nd =>
        { nd with id := pasteLookup mapping nd.id,
                  position := nd.position + offset, selected := true })
      let newEdges := clip.edges.map (fun e =>
        { e with
          id := edgeIdOf (pasteLookup mapping e.source)
            (pasteLookup mapping e.target) e.sourceHandle e.targetHandle,
          source := pasteLookup mapping e.source,
          target := pasteLookup mapping e.target })
      let updatedNodes := s.nodes.map (fun n => { n with selected := false })
      { s with nodes := updatedNodes ++ newNodes,
               edges := s.edges ++ newEdges,
               nodeIdCounter := counter',
               hasUnsavedChanges := true }

/-- Trailing `-(\d+)$` suffix used by `loadWorkflow` for the group counter. -/
def groupSuffix (id : String) : Option Nat :=
  let rev := id.data.reverse
  let ds := rev.takeWhile isDigit10
  match ds, rev.drop ds.length with
  | [], _ => none
  | _, '-' :: _ => some (parseDigits ds.reverse)
  | _, _ => none

/-- `loadWorkflow(workflow)`.  `cfgGenerationsPath` models the
`localStorage`-backed save-config lookup (external to the graph engine). -/
def loadWorkflow (wf : WorkflowFile) (cfgGenerationsPath : Option String)
    (s : WFState) : WFState :=
  let dedupedNodes := deduplicateWorkflowNodes wf.nodes
  let counter' := max s.nodeIdCounter (findMaxNodeSuffix dedupedNodes)
  let maxGroupId := (wf.groups.getD []).foldl
    (fun mx p => match groupSuffix p.1 with
      | some v => max mx v
      | none => mx) 0
  { s with
    nodes := dedupedNodes,
    edges := wf.edges,
    edgeStyle := match wf.edgeStyle with
      | some st => if st = "" then "angular" else st
      | none => "angular",
    groups := wf.groups.getD [],
    isRunning := false,
    currentNodeId := none,
    nodeIdCounter := counter',
    groupIdCounter := maxGroupId,
    workflowName := some wf.name,
    generationsPath := cfgGenerationsPath,
    hasUnsavedChanges := false }

/-! ## Canvas-side connection validation (`WorkflowCanvas.tsx`) -/

/-- `isValidConnection` from `WorkflowCanvas.tsx`. -/
def isValidConnection (c : Connection) : Bool :=
  if c.sourceHandle == some "image" && c.targetHandle != some "image" then false
  else if c.sourceHandle == some "text" && c.targetHandle != some "text" then false
  else true

/-- `getNodeHandles` from `WorkflowCanvas.tsx` (output handles only; inputs are
not consulted by `handleConnect`). -/
def getNodeHandles (t : NodeType) : List String :=
  match t with
  | .imageInput => ["image"]
  | NodeType.annotation => ["image"]
  | .prompt => ["text"]
  | .nanoBanana => ["image"]
  | .llmGenerate => ["text"]
  | .output => []
  | .splitGrid => []

/-- `handleConnect` from `WorkflowCanvas.tsx`: the connect operation as wired
into React Flow (the guard `isValidConnection` plus the multi-select fan-out
around the store's `onConnect`). -/
def handleConnect (c : Connection) (s : WFState) : WFState :=
  if !isValidConnection c then s
  else
    let selectedNodes := s.nodes.filter (fun n => n.selected)
    let sourceNode := s.nodes.find? (fun n => n.id == c.source)
    let sourceSelected := match sourceNode with
      | some n => n.selected
      | none => false
    if sourceSelected && selectedNodes.length > 1 && strTruthy c.sourceHandle then
      selectedNodes.foldl
        (fun s' nd =>
          if nd.id == c.source then onConnect c s'
          else if (getNodeHandles nd.type).contains
              ((c.sourceHandle).getD "") then
            let mc : Connection :=
              { source := nd.id, sourceHandle := c.sourceHandle,
                target := c.target, targetHandle := c.targetHandle }
            if isValidConnection mc then onConnect mc s' else s'
          else s')
        s
    else onConnect c s

/-! ## JSON values and the `extractJson` heuristic

`JSON.parse` / `JSON.stringify` and the fenced-code-block regex are JavaScript
builtins, external to the repository; they enter the model as oracle fields of
`Backend`.  The priority order of `extractJson` (direct parse, fenced block,
`{…}` scan, `[…]` scan) and all the index arithmetic are translated from the
source. -/

inductive JsonVal
  | str (s : String)
  | num (n : Int)
  | jbool (b : Bool)
  | jnull
  | arr (elems : List JsonVal)
  | obj (fields : List (String × JsonVal))

/-- JS truthiness of a JSON value. -/
def JsonVal.truthy : JsonVal → Bool
  | .str s => s ≠ ""
  | .num n => n ≠ 0
  | .jbool b => b
  | .jnull => false
  | .arr _ => true
  | .obj _ => true

/-- Property access `v.key` (yields `undefined` on non-objects). -/
def JsonVal.getField : JsonVal → String → Option JsonVal
  | .obj fields, key => (fields.find? (fun p => p.1 == key)).map (·.2)
  | _, _ => none

/-- `v.k1 || v.k2 || …`: the first truthy field among the keys. -/
def firstTruthyField (v : JsonVal) (keys : List String) : Option JsonVal :=
  match keys with
  | [] => none
  | k :: ks =>
    match v.getField k with
    | some fv => if fv.truthy then some fv else firstTruthyField v ks
    | none => firstTruthyField v ks

/-- Image-generation request body (`/api/generate`). -/
structure GenRequest where
  images : List String
  prompt : String
  aspectRatio : String
  resolution : String
  model : String
  useGoogleSearch : Bool

/-- Image-generation response body (`GenerateResponse`). -/
structure GenResult where
  success : Bool := false
  image : Option String := none
  error : Option String := none

/-- Text-generation request body (`/api/llm`). -/
structure LlmRequest where
  prompt : String
  images : List String
  provider : String
  model : String
  temperature : Int
  maxTokens : Nat

/-- Text-generation response body (`LLMGenerateResponse`). -/
structure LlmResult where
  success : Bool := false
  text : Option String := none
  error : Option String := none

/-- What a thrown exception of a `fetch` call looks like to the catch blocks
(`instanceof` tests in the source).  All cases except `nonError` are
`instanceof Error` and carry a `message`. -/
inductive JsError
  | abortError (msg : String)
  | networkTypeError (msg : String)
  | typeError (msg : String)
  | err (msg : String)
  | nonError

/-- Outcome of an awaited `fetch`. -/
inductive FetchOutcome (α : Type)
  | ok (result : α)
  | httpError (status : Nat) (statusText : String) (bodyText : String)
  | threw (e : JsError)

/-- The external collaborators of the scheduler, as pure oracles: the two
generation endpoints, the JS `JSON` builtins, the fenced-code-block regex
capture, and the grid-splitting utilities (`@/utils/gridSplitter` and image
decoding, which are outside the store source). -/
structure Backend where
  gen : GenRequest → FetchOutcome GenResult
  llm : LlmRequest → FetchOutcome LlmResult
  jsonParse : String → Option JsonVal
  fencedCapture : String → Option String
  stringify : JsonVal → String
  splitImage : String → Nat → Nat → Except String (List String)
  imageDims : String → Option (Nat × Nat)

/-- `extractJson(text)` from `workflowStore.ts`.  Note the scoping of the two
`try` blocks: a parse failure inside step 2 or step 3 aborts the whole
extraction (it does not fall through to the next step); only a *non-matching*
step falls through. -/
def extractJson (B : Backend) (text : String) : Option JsonVal :=
  match B.jsonParse text with
  | some v => some v
  | none =>
    match B.fencedCapture text with
    | some captured =>
      if captured ≠ "" then B.jsonParse captured.trim
      else extractJsonBrackets B text
    | none => extractJsonBrackets B text
where
  /-- Steps 3 and 4: first-to-last `{…}`, else first-to-last `[…]`. -/
  extractJsonBrackets (B : Backend) (text : String) : Option JsonVal :=
    let cs := text.data
    match cs.indexOf? '{', (cs.reverse.indexOf? '}').map (fun k => cs.length - 1 - k) with
    | some f, some l =>
      if f < l then B.jsonParse ⟨(cs.drop f).take (l + 1 - f)⟩
      else extractJsonSquare B cs
    | _, _ => extractJsonSquare B cs
  extractJsonSquare (B : Backend) (cs : List Char) : Option JsonVal :=
    match cs.indexOf? '[', (cs.reverse.indexOf? ']').map (fun k => cs.length - 1 - k) with
    | some f, some l =>
      if f < l then B.jsonParse ⟨(cs.drop f).take (l + 1 - f)⟩
      else none
    | _, _ => none

/-! ## Connection input resolver (`getConnectedInputs`) -/

/-- `getConnectedInputs(nodeId)`: collects `(images, texts)` from the incoming
edges, in edge order.  Called on the *current* store state. -/
def getConnectedInputs (nodes : List WNode) (edges : List WEdge)
    (nid : String) : List String × List String :=
  (edges.filter (fun e => e.target == nid)).foldl
    (fun acc e =>
      match nodes.find? (fun n => n.id == e.source) with
      | none => acc
      | some src =>
        let handleId := e.targetHandle
        let acc :=
          if handleId == some "image" || !strTruthy handleId then
            let img : Option String :=
              match src.type with
              | .imageInput => src.data.image
              | NodeType.annotation => src.data.outputImage
              | .nanoBanana => src.data.outputImage
              | _ => none
            match img with
            | some i => if i ≠ "" then (acc.1 ++ [i], acc.2) else acc
            | none => acc
          else acc
        if handleId == some "text" then
          let txt : Option String :=
            match src.type with
            | .prompt => some src.data.prompt
            | .llmGenerate => src.data.outputText
            | _ => none
          match txt with
          | some t => if t ≠ "" then (acc.1, acc.2 ++ [t]) else acc
          | none => acc
        else acc)
    ([], [])

/-! ## Topological sort with cycle detection (`executeWorkflow`, visit) -/

/-- Errors thrown during the scheduling phase.  `fuelExhausted` is an artifact
of the fuel-based embedding of the recursive `visit`; `topoSort_no_fuelError`
below proves it never occurs at the fuel `topoSort` supplies. -/
inductive ExecErr
  | cycleDetected
  | fuelExhausted
  deriving DecidableEq, Repr

/-- State of the depth-first visit: the grey set, the black set, and the
post-order list. -/
structure TopoSt where
  visiting : List String
  visited : List String
  sorted : List WNode

/-- Sequential error-propagating fold of a visit function over a list of ids
(the `forEach` in `visit`, and the top-level `forEach` over the nodes). -/
def visitFold (f : String → TopoSt → Except ExecErr TopoSt) :
    List String → TopoSt → Except ExecErr TopoSt
  | [], st => .ok st
  | x :: xs, st =>
    match f x st with
    | .error e => .error e
    | .ok st' => visitFold f xs st'

/-- The recursive `visit(nodeId)` of `executeWorkflow`, with explicit fuel
bounding the recursion depth. -/
def visit (nodes : List WNode) (edges : List WEdge) :
    Nat → String → TopoSt → Except ExecErr TopoSt
  | 0, _, _ => .error .fuelExhausted
  | fuel + 1, nid, st =>
    if nid ∈ st.visited then .ok st
    else if nid ∈ st.visiting then .error .cycleDetected
    else
      match visitFold (visit nodes edges fuel)
          (((edges.filter (fun e => e.target == nid)).map (·.source)))
          { st with visiting := nid :: st.visiting } with
      | .error e => .error e
      | .ok st2 =>
        .ok { visiting := st2.visiting.erase nid,
              visited := nid :: st2.visited,
              sorted :=
                match nodes.find? (fun n => n.id == nid) with
                | some nd => st2.sorted ++ [nd]
                | none => st2.sorted }

/-- `nodes.forEach(node => visit(node.id))` followed by reading off the sorted
list.  The fuel `nodes.length + edges.length + 1` bounds the visit depth (each
level of recursion greys a distinct id drawn from the node ids and edge
sources); sufficiency is proved in `topoSort_no_fuelError`. -/
def topoSort (nodes : List WNode) (edges : List WEdge) :
    Except ExecErr (List WNode) :=
  let fuel := nodes.length + edges.length + 1
  match visitFold (visit nodes edges fuel) (nodes.map (·.id)) ⟨[], [], []⟩ with
  | .error e => .error e
  | .ok st => .ok st.sorted

/-! ## The execution loop -/

/-- A request issued to an external endpoint during a run (ghost trace). -/
inductive ReqEv
  | genReq (r : GenRequest)
  | llmReq (r : LlmRequest)
  | saveGeneration (dir image prompt : String)

/-- Ghost trace of a run: requests issued, node ids dispatched (in order), and
`(nodeId, status)` writes. -/
structure RunTrace where
  requests : List ReqEv := []
  processed : List String := []
  statusEvents : List (String × String) := []

/-- Summary of how a run ended (ghost; the source discards the distinction
except through the state fields). -/
inductive RunOutcome
  | alreadyRunning
  | errored (e : ExecErr)
  | paused (id : String)
  | halted
  | stopped
  | completed
  deriving DecidableEq, Repr

/-- `updateNodeData(nodeId, partial)` at a call site writing fields `f`. -/
def updData (nid : String) (f : NodeData → NodeData) (s : WFState) : WFState :=
  { s with
    nodes := s.nodes.map (fun n =>
      if n.id == nid then { n with data := f n.data } else n),
    hasUnsavedChanges := true }

/-- `texts.join("\n\n")`. -/
def joinNN (l : List String) : String :=
  String.intercalate "\n\n" l

/-- Whether a dispatched node lets the loop continue or halts the run. -/
inductive StepRes
  | cont
  | halt
  deriving DecidableEq, Repr

/-- `set({isRunning:false, currentNodeId:null})` (the halt pattern). -/
def haltState (s : WFState) : WFState :=
  { s with isRunning := false, currentNodeId := none }

/-- `errorText.substring(0, 200)`. -/
def strTake (s : String) (n : Nat) : String :=
  ⟨s.data.take n⟩

/-- The error value stored from a structured JSON error body
(`errorJson.error`); non-string JSON values are kept via their
stringification. -/
def jsonErrVal (B : Backend) (v : JsonVal) : String :=
  match v with
  | .str s => s
  | v => B.stringify v

/-- Error-message extraction of a non-2xx response, shared shape of the
`!response.ok` branches: `base` then `errorJson.error || base`, else
`base - body.substring(0,200)`. -/
def httpErrMessage (B : Backend) (base : String) (bodyText : String) : String :=
  match B.jsonParse bodyText with
  | some v =>
    match v.getField "error" with
    | some fv => if fv.truthy then jsonErrVal B fv else base
    | none => base
  | none => if bodyText ≠ "" then base ++ " - " ++ strTake bodyText 200 else base

/-- `split-${row}-${col}.png` naming of `splitGrid` tiles (for `gridCols = 0`
the JS float division yields `Infinity`; the model's `Nat` division differs on
that degenerate, never-exercised corner). -/
def splitFilename (index cols : Nat) : String :=
  "split-" ++ natStr (index / cols + 1) ++ "-" ++ natStr (index % cols + 1) ++ ".png"

/-- The `splitGrid` child-population loop. -/
def populateChildren (B : Backend) (cols : Nat)
    (children : List (Nat × ChildSet)) (splitImages : List String)
    (s : WFState) : WFState :=
  children.foldl
    (fun s' (p : Nat × ChildSet) =>
      match splitImages.get? p.1 with
      | some img =>
        if img ≠ "" then
          match B.imageDims img with
          | some (w, h) =>
            updData p.2.imageInput
              (fun d => { d with image := some img,
                                 filename := some (splitFilename p.1 cols),
                                 dimensions := some (w, h) }) s'
          | none => s'   -- img.onerror: resolve without writing
        else s'
      | none => s')
    s

/-- Per-node dispatch of `executeWorkflow` (the `switch (node.type)`).
`nd` is the entry from the sorted list — a snapshot taken before the run, which
the source consults for `node.data` (e.g. `imageHistory`, `isConfigured`) even
after earlier updates in the same run; `s` is the live store. -/
def dispatchNode (B : Backend) (nd : WNode) (s : WFState) (tr : RunTrace) :
    StepRes × WFState × RunTrace :=
  match nd.type with
  | .imageInput => (.cont, s, tr)
  | .prompt => (.cont, s, tr)
  | NodeType.annotation =>
    let inputs := getConnectedInputs s.nodes s.edges nd.id
    match inputs.1 with
    | [] => (.cont, s, tr)
    | image :: _ =>
      let s := updData nd.id (fun d => { d with sourceImage := some image }) s
      let s :=
        if !strTruthy nd.data.outputImage then
          updData nd.id (fun d => { d with outputImage := some image }) s
        else s
      (.cont, s, tr)
  | .output =>
    let inputs := getConnectedInputs s.nodes s.edges nd.id
    match inputs.1 with
    | [] => (.cont, s, tr)
    | image :: _ => (.cont, updData nd.id (fun d => { d with image := some image }) s, tr)
  | .nanoBanana =>
    let inputs := getConnectedInputs s.nodes s.edges nd.id
    let images := inputs.1
    let texts := inputs.2
    if texts.isEmpty then
      let s := updData nd.id
        (fun d => { d with status := "error", error := some "Missing text input" }) s
      (.halt, haltState s, { tr with statusEvents := tr.statusEvents ++ [(nd.id, "error")] })
    else
      let text := joinNN texts
      let finalPrompt :=
        match extractJson B text with
        | some v =>
          match firstTruthyField v
              ["generated_prompt", "prompt", "subject", "description"] with
          | some cand => jsonErrVal B cand
          | none => text
        | none => text
      let s := updData nd.id
        (fun d => { d with inputImages := images, inputPrompt := some finalPrompt,
                           status := "loading", error := none }) s
      let tr := { tr with statusEvents := tr.statusEvents ++ [(nd.id, "loading")] }
      let req : GenRequest :=
        { images := images, prompt := finalPrompt,
          aspectRatio := nd.data.aspectRatio, resolution := nd.data.resolution,
          model := nd.data.model, useGoogleSearch := nd.data.useGoogleSearch }
      let tr := { tr with requests := tr.requests ++ [ReqEv.genReq req] }
      match B.gen req with
      | .httpError status statusText body =>
        let msg := httpErrMessage B
          ("HTTP " ++ natStr status ++ ": " ++ statusText) body
        let s := updData nd.id
          (fun d => { d with status := "error", error := some msg }) s
        (.halt, haltState s, { tr with statusEvents := tr.statusEvents ++ [(nd.id, "error")] })
      | .threw e =>
        let msg :=
          match e with
          | .abortError _ =>
            "Request timed out. Try reducing image sizes or using a simpler prompt."
          | .networkTypeError _ => "Network error. Check your connection and try again."
          | .typeError m => "Network error: " ++ m
          | .err m => m
          | .nonError => "Generation failed"
        let s := updData nd.id
          (fun d => { d with status := "error", error := some msg }) s
        (.halt, haltState s, { tr with statusEvents := tr.statusEvents ++ [(nd.id, "error")] })
      | .ok result =>
        if result.success && strTruthy result.image then
          let img := result.image.getD ""
          -- addToGlobalHistory prepends (timestamps/random ids omitted)
          let s := { s with globalImageHistory := (img, finalPrompt) :: s.globalImageHistory }
          let newHistory := nd.data.imageHistory ++ [img]
          let s := updData nd.id
            (fun d => { d with outputImage := some img, imageHistory := newHistory,
                               historyIndex := some (newHistory.length - 1),
                               status := "done", error := none }) s
          let tr := { tr with statusEvents := tr.statusEvents ++ [(nd.id, "done")] }
          let tr :=
            match s.generationsPath with
            | some p =>
              if p ≠ "" then
                { tr with requests := tr.requests ++ [ReqEv.saveGeneration p img finalPrompt] }
              else tr
            | none => tr
          (.cont, s, tr)
        else
          let msg :=
            match result.error with
            | some e => if e ≠ "" then e else "Generation failed"
            | none => "Generation failed"
          let s := updData nd.id
            (fun d => { d with status := "error", error := some msg }) s
          (.halt, haltState s, { tr with statusEvents := tr.statusEvents ++ [(nd.id, "error")] })
  | .llmGenerate =>
    let inputs := getConnectedInputs s.nodes s.edges nd.id
    let images := inputs.1
    let texts := inputs.2
    let finalPrompt : Option String :=
      if !texts.isEmpty then some (joinNN texts)
      else if !images.isEmpty then some "Identify this image"
      else none
    match finalPrompt with
    | none =>
      let s := updData nd.id
        (fun d => { d with status := "error",
                           error := some "Missing text input (Connect a Prompt node)" }) s
      (.halt, haltState s, { tr with statusEvents := tr.statusEvents ++ [(nd.id, "error")] })
    | some prompt =>
      let s := updData nd.id
        (fun d => { d with inputPrompt := some prompt, status := "loading",
                           error := none }) s
      let tr := { tr with statusEvents := tr.statusEvents ++ [(nd.id, "loading")] }
      let req : LlmRequest :=
        { prompt := prompt, images := images, provider := nd.data.provider,
          model := nd.data.model, temperature := nd.data.temperature,
          maxTokens := nd.data.maxTokens }
      let tr := { tr with requests := tr.requests ++ [ReqEv.llmReq req] }
      match B.llm req with
      | .httpError status _ body =>
        let msg := httpErrMessage B ("HTTP " ++ natStr status) body
        let s := updData nd.id
          (fun d => { d with status := "error", error := some msg }) s
        (.halt, haltState s, { tr with statusEvents := tr.statusEvents ++ [(nd.id, "error")] })
      | .threw e =>
        let msg :=
          match e with
          | .abortError m => m
          | .networkTypeError m => m
          | .typeError m => m
          | .err m => m
          | .nonError => "LLM generation failed"
        let s := updData nd.id
          (fun d => { d with status := "error", error := some msg }) s
        (.halt, haltState s, { tr with statusEvents := tr.statusEvents ++ [(nd.id, "error")] })
      | .ok result =>
        if result.success && strTruthy result.text then
          let s := updData nd.id
            (fun d => { d with outputText := result.text, status := "complete",
                               error := none }) s
          (.cont, s, { tr with statusEvents := tr.statusEvents ++ [(nd.id, "complete")] })
        else
          let msg :=
            match result.error with
            | some e => if e ≠ "" then e else "LLM generation failed"
            | none => "LLM generation failed"
          let s := updData nd.id
            (fun d => { d with status := "error", error := some msg }) s
          (.halt, haltState s, { tr with statusEvents := tr.statusEvents ++ [(nd.id, "error")] })
  | .splitGrid =>
    let inputs := getConnectedInputs s.nodes s.edges nd.id
    let images := inputs.1
    let sourceImage : Option String :=
      match images with
      | img :: _ => some img
      | [] => nd.data.sourceImage
    if !strTruthy sourceImage then
      let s := updData nd.id
        (fun d => { d with status := "error", error := some "No input image connected" }) s
      (.halt, haltState s, { tr with statusEvents := tr.statusEvents ++ [(nd.id, "error")] })
    else if !nd.data.isConfigured then
      let s := updData nd.id
        (fun d => { d with status := "error",
                           error := some "Node not configured - open settings first" }) s
      (.halt, haltState s, { tr with statusEvents := tr.statusEvents ++ [(nd.id, "error")] })
    else
      let src := sourceImage.getD ""
      let s := updData nd.id
        (fun d => { d with sourceImage := sourceImage, status := "loading",
                           error := none }) s
      let tr := { tr with statusEvents := tr.statusEvents ++ [(nd.id, "loading")] }
      match B.splitImage src nd.data.gridRows nd.data.gridCols with
      | .error msg =>
        let s := updData nd.id
          (fun d => { d with status := "error", error := some msg }) s
        (.halt, haltState s, { tr with statusEvents := tr.statusEvents ++ [(nd.id, "error")] })
      | .ok splitImages =>
        let s := populateChildren B nd.data.gridCols
          (nd.data.childNodeIds.enum) splitImages s
        let s := updData nd.id
          (fun d => { d with status := "complete", error := none }) s
        (.cont, s, { tr with statusEvents := tr.statusEvents ++ [(nd.id, "complete")] })

/-- `edges.filter(e => e.target === id).find(e => e.data?.hasPause)` — whether
any incoming edge (of the entry edge list) carries a pause flag. -/
def hasPauseIncoming (edges0 : List WEdge) (nid : String) : Bool :=
  ((edges0.filter (fun e => e.target == nid)).find? (fun e => e.pauseTruthy)).isSome

/-- The `for` loop of `executeWorkflow` over the (truncated) sorted order.
`edges0` is the edge list captured at entry (used for the pause checks);
`getConnectedInputs` inside `dispatchNode` reads the live state. -/
def runLoop (B : Backend) (edges0 : List WEdge) (isResuming : Bool)
    (startFrom : Option String) :
    List WNode → WFState → RunTrace → WFState × RunTrace × RunOutcome
  | [], s, tr => (haltState s, tr, .completed)
  | nd :: rest, s, tr =>
    if !s.isRunning then (haltState s, tr, .stopped)
    else
      let isResumingThisNode := isResuming && startFrom == some nd.id
      if !isResumingThisNode && hasPauseIncoming edges0 nd.id then
        ({ s with pausedAtNodeId := some nd.id, isRunning := false,
                  currentNodeId := none }, tr, .paused nd.id)
      else
        let s := { s with currentNodeId := some nd.id }
        let tr := { tr with processed := tr.processed ++ [nd.id] }
        match dispatchNode B nd s tr with
        | (.halt, s', tr') => (s', tr', .halted)
        | (.cont, s', tr') => runLoop B edges0 isResuming startFrom rest s' tr'

/-- `executeWorkflow(startFromNodeId?)`.  Returns the final state together with
the ghost trace and outcome. -/
def executeWorkflow (B : Backend) (startFrom : Option String) (s : WFState) :
    WFState × RunTrace × RunOutcome :=
  if s.isRunning then (s, {}, .alreadyRunning)
  else
    -- `startFromNodeId === get().pausedAtNodeId` (strict equality: an absent
    -- start argument, `undefined`, never equals `null`).
    let isResuming :=
      match startFrom, s.pausedAtNodeId with
      | some a, some b => a == b
      | _, _ => false
    let s1 := { s with isRunning := true, pausedAtNodeId := none }
    match topoSort s.nodes s.edges with
    | .error e => (haltState s1, {}, .errored e)
    | .ok sorted =>
      let startIndex :=
        match startFrom with
        | some sid =>
          match sorted.findIdx? (fun n => n.id == sid) with
          | some i => i
          | none => 0
        | none => 0
      runLoop B s.edges isResuming startFrom (sorted.drop startIndex) s1 {}

/-! ## Sessions

A session is a sequence of store operations applied to the initial store state.
`Session` pairs the store with the ghost list of ids handed out by `addNode`
(newest first), so that "never returns an id previously returned" can be
stated. -/

/-- A store operation of a session. -/
inductive Op
  | opAddNode (t : NodeType) (position : Pos)
  | opRemoveNode (nodeId : String)
  | opSelectNode (nodeId : String) (val : Bool)
  | opConnect (c : Connection)
  | opTogglePause (edgeId : String)
  | opCopy
  | opPaste (offset : Pos)
  | opLoad (wf : WorkflowFile) (cfg : Option String)
  | opUndo
  | opRedo
  | opSave

/-- Store state plus the ghost trace of ids returned by `addNode`. -/
structure Session where
  st : WFState
  returnedIds : List String

/-- The initial session: the store's initial state, no ids handed out. -/
def initSession : Session :=
  ⟨{}, []⟩

/-- Apply one operation. -/
def applyOp (s : Session) : Op → Session
  | .opAddNode t p =>
    let (id, st') := addNode t p s.st
    ⟨st', id :: s.returnedIds⟩
  | .opRemoveNode nid => ⟨removeNode nid s.st, s.returnedIds⟩
  | .opSelectNode nid v => ⟨selectNode nid v s.st, s.returnedIds⟩
  | .opConnect c => ⟨onConnect c s.st, s.returnedIds⟩
  | .opTogglePause eid => ⟨toggleEdgePause eid s.st, s.returnedIds⟩
  | .opCopy => ⟨copySelectedNodes s.st, s.returnedIds⟩
  | .opPaste off => ⟨pasteNodes off s.st, s.returnedIds⟩
  | .opLoad wf cfg => ⟨loadWorkflow wf cfg s.st, s.returnedIds⟩
  | .opUndo => ⟨undo s.st, s.returnedIds⟩
  | .opRedo => ⟨redo s.st, s.returnedIds⟩
  | .opSave => ⟨saveToHistory s.st, s.returnedIds⟩

/-- Run a session (operations applied left to right). -/
def runOps (ops : List Op) : Session :=
  ops.foldl applyOp initSession

/-! ## History-manager sequences (for the history-stack invariant) -/

/-- One call into the history manager. -/
inductive HistOp
  | hsave
  | hundo
  | hredo

/-- Apply a history call. -/
def applyHistOp (s : WFState) : HistOp → WFState
  | .hsave => saveToHistory s
  | .hundo => undo s
  | .hredo => redo s

/-- Run a sequence of history calls. -/
def runHist (ops : List HistOp) (s : WFState) : WFState :=
  ops.foldl applyHistOp s

/-- The history-manager invariant: at most 50 snapshots, and the current index
points at a snapshot or at `-1`. -/
def HInv (s : WFState) : Prop :=
  s.historyStack.length ≤ 50 ∧ -1 ≤ s.historyIndex ∧
    s.historyIndex < (s.historyStack.length : Int)

/-! ## Directed paths and cycles among the graph's nodes -/

/-- A nonempty directed path through `edges` whose endpoints all carry ids of
actual nodes. -/
inductive EdgePath (nodes : List WNode) (edges : List WEdge) : String → String → Prop
  | single {a b : String} (e : WEdge) (he : e ∈ edges) (hs : e.source = a)
      (ht : e.target = b) (ha : a ∈ nodes.map WNode.id)
      (hb : b ∈ nodes.map WNode.id) : EdgePath nodes edges a b
  | cons {a b c : String} (e : WEdge) (he : e ∈ edges) (hs : e.source = a)
      (ht : e.target = b) (ha : a ∈ nodes.map WNode.id)
      (hb : b ∈ nodes.map WNode.id) (rest : EdgePath nodes edges b c) :
      EdgePath nodes edges a c

/-- The edge set contains a directed cycle among the graph's nodes. -/
def hasCycle (nodes : List WNode) (edges : List WEdge) : Prop :=
  ∃ a, EdgePath nodes edges a a

/-! ## Concrete inputs used by witnesses and counterexamples -/

/-- A backend oracle whose answers are never consulted by the scenarios that
use it (no generation node ever reaches a fetch). -/
def trivBackend : Backend where
  gen := fun _ => .threw .nonError
  llm := fun _ => .threw .nonError
  jsonParse := fun _ => none
  fencedCapture := fun _ => none
  stringify := fun _ => ""
  splitImage := fun _ _ _ => .error "unavailable"
  imageDims := fun _ => none

/-- The stub backend of the C3 scenario:
`{success: true, image: "data:image/png;base64,AAA"}`. -/
def c3Backend : Backend where
  gen := fun _ => .ok { success := true, image := some "data:image/png;base64,AAA" }
  llm := fun _ => .threw .nonError
  jsonParse := fun _ => none
  fencedCapture := fun _ => none
  stringify := fun _ => ""
  splitImage := fun _ _ _ => .error "unavailable"
  imageDims := fun _ => none

/-- C3 scenario: the prompt node `promptNode("draw a cat")`. -/
def c3Prompt : WNode :=
  { id := "prompt-1", type := .prompt, position := ⟨0, 0⟩,
    data := { createDefaultNodeData .prompt with prompt := "draw a cat" } }

/-- C3 scenario: the generation node. -/
def c3Gen : WNode :=
  { id := "nanoBanana-2", type := .nanoBanana, position := ⟨0, 0⟩,
    data := createDefaultNodeData .nanoBanana }

/-- C3 scenario: the text edge `promptNode --text--> genNode`. -/
def c3Edge : WEdge :=
  { id := "edge-prompt-1-nanoBanana-2-text-text", source := "prompt-1",
    target := "nanoBanana-2", sourceHandle := some "text",
    targetHandle := some "text" }

/-- C3 scenario state. -/
def c3State : WFState :=
  { nodes := [c3Prompt, c3Gen], edges := [c3Edge] }

/-- C2 counterexample: a generation node with no text input (it errors and
halts the run before the paused-at marker is ever set). -/
def ce2Gen : WNode :=
  { id := "nanoBanana-1", type := .nanoBanana, position := ⟨0, 0⟩,
    data := createDefaultNodeData .nanoBanana }

/-- C2 counterexample: the output node B, the only pause-edge target. -/
def ce2Out : WNode :=
  { id := "output-2", type := .output, position := ⟨0, 0⟩, data := {} }

/-- C2 counterexample: the paused edge into B. -/
def ce2Edge : WEdge :=
  { id := "edge-nanoBanana-1-output-2-image-image", source := "nanoBanana-1",
    target := "output-2", sourceHandle := some "image",
    targetHandle := some "image", data := some ⟨some true⟩ }

/-- C2 counterexample state: `nanoBanana-1 --(paused)--> output-2`. -/
def ce2State : WFState :=
  { nodes := [ce2Gen, ce2Out], edges := [ce2Edge] }

/-- C2 witness: an image-input node A (a non-halting type). -/
def w2In : WNode :=
  { id := "imageInput-1", type := .imageInput, position := ⟨0, 0⟩, data := {} }

/-- C2 witness: the output node B. -/
def w2Out : WNode :=
  { id := "output-2", type := .output, position := ⟨0, 0⟩, data := {} }

/-- C2 witness: the paused edge into B. -/
def w2Edge : WEdge :=
  { id := "edge-imageInput-1-output-2-image-image", source := "imageInput-1",
    target := "output-2", sourceHandle := some "image",
    targetHandle := some "image", data := some ⟨some true⟩ }

/-- C2 witness state: `imageInput-1 --(paused)--> output-2`. -/
def w2State : WFState :=
  { nodes := [w2In, w2Out], edges := [w2Edge] }

/-- C1 witness: a two-node cycle. -/
def w1State : WFState :=
  { nodes := [{ id := "a", type := .imageInput, position := ⟨0, 0⟩, data := {} },
              { id := "b", type := .output, position := ⟨0, 0⟩, data := {} }],
    edges := [{ id := "e1", source := "a", target := "b" },
              { id := "e2", source := "b", target := "a" }] }

/-- C7 counterexample: a prior state holding a paused-run marker and a
clipboard. -/
def c7Prior : WFState :=
  { pausedAtNodeId := some "output-2",
    clipboard := some ⟨[w2Out], []⟩ }

/-- C7 counterexample: a workflow file. -/
def c7File : WorkflowFile :=
  { name := "w", nodes := [w2In], edges := [] }

/-- C8 witness: an existing edge between two handles. -/
def w8Edge : WEdge :=
  { id := "edge-a-b-image-image", source := "a", target := "b",
    sourceHandle := some "image", targetHandle := some "image" }

/-- C8 witness state. -/
def w8State : WFState :=
  { nodes := [], edges := [w8Edge] }

/-- C10 witness state: two edges, one with no `data` at all. -/
def w10State : WFState :=
  { nodes := [w2In, w2Out],
    edges := [{ id := "e1", source := "imageInput-1", target := "output-2" },
              { id := "e2", source := "imageInput-1", target := "output-2",
                targetHandle := some "image" }] }

/-! ## Proof-support predicates -/

/-- Relation between the visit state before and after a successful `visit`:
the grey set is restored, the black set only grows, ids that became black were
not grey at the start, and the post-order list is only appended to. -/
def ShapeOK (st st' : TopoSt) : Prop :=
  st'.visiting = st.visiting ∧
  (∀ x ∈ st.visited, x ∈ st'.visited) ∧
  (∀ y ∈ st'.visited, y ∈ st.visited ∨ y ∉ st.visiting) ∧
  (∃ t, st'.sorted = st.sorted ++ t)

/-- The depth-first-search invariant tying the black set to the post-order
list: visited node ids are in the list, list entries are visited, the list has
no duplicate ids, and every incoming edge of a listed node has its source
visited and (when the source is a node) listed strictly earlier. -/
def StOK (nodes : List WNode) (edges : List WEdge) (st : TopoSt) : Prop :=
  (∀ id ∈ st.visited, id ∈ nodes.map WNode.id → id ∈ st.sorted.map WNode.id) ∧
  (∀ nd ∈ st.sorted, nd.id ∈ st.visited) ∧
  (st.sorted.map WNode.id).Nodup ∧
  (∀ e ∈ edges, ∀ j, ∀ hj : j < st.sorted.length,
    (st.sorted.get ⟨j, hj⟩).id = e.target →
      e.source ∈ st.visited ∧
      (e.source ∈ nodes.map WNode.id →
        ∃ i, ∃ hi : i < st.sorted.length, i < j ∧
          (st.sorted.get ⟨i, hi⟩).id = e.source))

/-- The id universe bounding the depth of `visit`: node ids and edge
sources. -/
def topoUniverse (nodes : List WNode) (edges : List WEdge) : Finset String :=
  (nodes.map WNode.id ++ edges.map WEdge.source).toFinset

/-- The node types whose dispatch can neither fail nor pause nor issue
requests (imageInput, prompt, annotation, output). -/
def pureNodeType (t : NodeType) : Prop :=
  t = .imageInput ∨ t = .prompt ∨ t = NodeType.annotation ∨ t = .output

/-- Recursive restatement of the keep-first deduplication (proved equal to the
`forEach` translation in `deduplicateWorkflowNodes_eq_rec`). -/
def dedupRec (seen : List String) : List WNode → List WNode
  | [] => []
  | nd :: rest =>
    if nd.id ∈ seen then dedupRec seen rest
    else nd :: dedupRec (nd.id :: seen) rest

/-- Well-formedness of a node list with respect to the id counter: no
duplicate ids, and every id of the regex shape has its suffix covered by the
counter. -/
def nodesOK (ns : List WNode) (c : Nat) : Prop :=
  (ns.map WNode.id).Nodup ∧
  ∀ nd ∈ ns, ∀ v, matchSuffix nd.id = some v → v ≤ c

/-- The session invariant: the live nodes, every history snapshot, and the
clipboard are well-formed for the current counter, and every id ever returned
by `addNode` has the generated shape with its suffix covered by the
counter. -/
def SessInv (s : Session) : Prop :=
  nodesOK s.st.nodes s.st.nodeIdCounter ∧
  (∀ h ∈ s.st.historyStack, nodesOK h.nodes s.st.nodeIdCounter) ∧
  (∀ clip, s.st.clipboard = some clip → nodesOK clip.nodes s.st.nodeIdCounter) ∧
  (∀ id ∈ s.returnedIds, ∃ t n, id = mkNodeId t n ∧ n ≤ s.st.nodeIdCounter)

/-- C6 witness session: add a prompt node and an output node, then select the
prompt node. -/
def c6ops : List Op :=
  [.opAddNode .prompt ⟨0, 0⟩, .opAddNode .output ⟨10, 10⟩,
   .opSelectNode "prompt-1" true]

/-- C6 witness paste offset. -/
def c6off : Pos := ⟨20, 20⟩

/-! # Theorems -/

/-- C4: a connection whose `sourceHandle` is `"image"` but whose `targetHandle`
is not (or symmetrically for `"text"`) is rejected by the connect operation as
a no-op: the store — in particular its edge list and the list's length — is
unchanged. -/
theorem c4_connect_type_mismatch_rejected (c : Connection) (s : WFState)
    (h : (c.sourceHandle = some "image" ∧ c.targetHandle ≠ some "image") ∨
         (c.sourceHandle = some "text" ∧ c.targetHandle ≠ some "text")) :
    handleConnect c s = s ∧ (handleConnect c s).edges = s.edges ∧
      (handleConnect c s).edges.length = s.edges.length := by
  have hv : isValidConnection c = false := by
    unfold isValidConnection
    rcases h with ⟨h1, h2⟩ | ⟨h1, h2⟩ <;> rw [h1] <;> simp [h2]
  have heq : handleConnect c s = s := by
    unfold handleConnect
    rw [hv]
    simp
  exact ⟨heq, by rw [heq], by rw [heq]⟩

/-- C4 witness: an `image → text` connection is dropped on a concrete store. -/
theorem c4_witness :
    (Connection.mk "a" "b" (some "image") (some "text")).sourceHandle = some "image" ∧
    handleConnect (Connection.mk "a" "b" (some "image") (some "text")) w8State = w8State :=
  ⟨rfl,
   (c4_connect_type_mismatch_rejected _ w8State (Or.inl ⟨rfl, by decide⟩)).1⟩

/-- C8: `onConnect` is idempotent for duplicate connections — if an edge with
the same `(source, target, sourceHandle, targetHandle)` quadruple is already in
the store, connecting again leaves the edge list unchanged. -/
theorem c8_onConnect_idempotent (c : Connection) (s : WFState)
    (h : ∃ el ∈ s.edges, el.source = c.source ∧ el.target = c.target ∧
         el.sourceHandle = c.sourceHandle ∧ el.targetHandle = c.targetHandle) :
    (onConnect c s).edges = s.edges := by
  obtain ⟨el, hmem, h1, h2, h3, h4⟩ := h
  unfold onConnect addEdge
  simp only []
  split
  · rfl
  · split
    · rfl
    · next hany =>
      exfalso
      apply hany
      rw [List.any_eq_true]
      refine ⟨el, hmem, ?_⟩
      simp [h1, h2, h3, h4]

/-- C8 witness: re-connecting an already-connected pair of handles on a
concrete store adds no edge. -/
theorem c8_witness :
    ((w8State.edges.get? 0).map WEdge.source = some "a") ∧
    (onConnect (Connection.mk "a" "b" (some "image") (some "image")) w8State).edges
      = w8State.edges :=
  ⟨rfl,
   c8_onConnect_idempotent _ w8State ⟨w8Edge, by decide, rfl, rfl, rfl, rfl⟩⟩

/-- C3 (code bug): on the scenario
`promptNode("draw a cat") --text--> genNode` with a stub backend returning
`{success: true, image: "data:image/png;base64,AAA"}`, the run sets the
generation node's status to `"loading"` and then to `"done"` — not to the
claimed `"complete"`, and `"done"` is not a member of the declared
`NodeStatus` enum `idle|loading|complete|error`.  The output image is recorded
as claimed. -/
theorem c3_nanoBanana_terminal_status_is_done :
    (executeWorkflow c3Backend none c3State).2.1.statusEvents
      = [("nanoBanana-2", "loading"), ("nanoBanana-2", "done")] ∧
    ((executeWorkflow c3Backend none c3State).1.nodes.find?
        (fun n => n.id == "nanoBanana-2")).map (fun n => n.data.status)
      = some "done" ∧
    ((executeWorkflow c3Backend none c3State).1.nodes.find?
        (fun n => n.id == "nanoBanana-2")).map (fun n => n.data.outputImage)
      = some (some "data:image/png;base64,AAA") ∧
    "done" ∉ ["idle", "loading", "complete", "error"] := by
  refine ⟨by decide, by decide, by decide, by decide⟩

/-- C7 counterexample: `loadWorkflow` does not reset `pausedAtNodeId` or
`clipboard` — loading a file over a store that holds a paused-run marker and a
clipboard keeps both, contradicting the claimed "pausedAtNodeId = null and
clipboard = null regardless of the store's prior state". -/
theorem c7_load_keeps_pause_and_clipboard :
    (loadWorkflow c7File none c7Prior).pausedAtNodeId = some "output-2" ∧
    (loadWorkflow c7File none c7Prior).clipboard = some ⟨[w2Out], []⟩ ∧
    ¬((loadWorkflow c7File none c7Prior).pausedAtNodeId = none ∧
      (loadWorkflow c7File none c7Prior).clipboard = none) := by
  refine ⟨by decide, by decide, by decide⟩

/-- Pointwise description of one `toggleEdgePause` application. -/
theorem toggleEdgePause_edges_pointwise (eid : String) (s : WFState) :
    List.Forall₂ (fun e' e : WEdge =>
      e'.id = e.id ∧ e'.source = e.source ∧ e'.target = e.target ∧
      e'.sourceHandle = e.sourceHandle ∧ e'.targetHandle = e.targetHandle ∧
      e'.etype = e.etype ∧ (e.id ≠ eid → e' = e) ∧
      (e.id = eid → e'.data = some ⟨some (!e.pauseTruthy)⟩))
      (toggleEdgePause eid s).edges s.edges := by
  unfold toggleEdgePause
  simp only [List.forall₂_map_left_iff]
  rw [List.forall₂_same]
  intro e _
  by_cases h : e.id = eid
  · simp [h]
  · have : (e.id == eid) = false := by simp [h]
    simp [this, h]

/-- C10: toggling an edge's pause flag twice restores its original effective
value (an absent flag is restored as the explicit `false`), and each
application changes nothing but that edge's `data.hasPause`: node list, group
list, and all other edges are untouched, and even on the toggled edge the id,
endpoints, handles and type survive. -/
theorem c10_toggleEdgePause_involutive (eid : String) (s : WFState)
    (h : eid ∈ s.edges.map WEdge.id) :
    (toggleEdgePause eid s).nodes = s.nodes ∧
    (toggleEdgePause eid s).groups = s.groups ∧
    (toggleEdgePause eid (toggleEdgePause eid s)).nodes = s.nodes ∧
    (toggleEdgePause eid (toggleEdgePause eid s)).groups = s.groups ∧
    List.Forall₂ (fun e' e : WEdge =>
      e'.id = e.id ∧ e'.source = e.source ∧ e'.target = e.target ∧
      e'.sourceHandle = e.sourceHandle ∧ e'.targetHandle = e.targetHandle ∧
      e'.etype = e.etype ∧ (e.id ≠ eid → e' = e) ∧
      (e.id = eid → e'.data = some ⟨some (!e.pauseTruthy)⟩))
      (toggleEdgePause eid s).edges s.edges ∧
    List.Forall₂ (fun e' e : WEdge =>
      e'.pauseTruthy = e.pauseTruthy ∧ e'.id = e.id ∧ e'.source = e.source ∧
      e'.target = e.target ∧ e'.sourceHandle = e.sourceHandle ∧
      e'.targetHandle = e.targetHandle ∧ e'.etype = e.etype ∧
      (e.id ≠ eid → e' = e) ∧
      (e.id = eid → e'.data = some ⟨some e.pauseTruthy⟩))
      (toggleEdgePause eid (toggleEdgePause eid s)).edges s.edges := by
  refine ⟨rfl, rfl, rfl, rfl, toggleEdgePause_edges_pointwise eid s, ?_⟩
  show List.Forall₂ _ ((s.edges.map _).map _) s.edges
  rw [List.map_map]
  simp only [List.forall₂_map_left_iff]
  rw [List.forall₂_same]
  intro e _
  by_cases hid : e.id = eid
  · simp only [Function.comp_apply, hid, beq_self_eq_true, if_true]
    have h1 : (WEdge.pauseTruthy { e with data := some ⟨some (!e.pauseTruthy)⟩ })
        = !e.pauseTruthy := rfl
    simp [WEdge.pauseTruthy, hid]
  · have : (e.id == eid) = false := by simp [hid]
    simp [Function.comp_apply, this, hid]

/-- C10 witness: toggling the (data-less) edge `e1` of a concrete store twice
leaves every observable component as it started. -/
theorem c10_witness :
    "e1" ∈ w10State.edges.map WEdge.id ∧
    (toggleEdgePause "e1" (toggleEdgePause "e1" w10State)).nodes = w10State.nodes :=
  ⟨by decide, (c10_toggleEdgePause_involutive "e1" w10State (by decide)).2.2.1⟩

/-- The stack and index that `saveToHistory` produces, read off the
definition. -/
theorem saveToHistory_stack (s : WFState) :
    (saveToHistory s).historyStack =
      (if (s.historyStack.take (s.historyIndex + 1).toNat
            ++ [(⟨s.nodes, s.edges, s.groups⟩ : HistoryState)]).length > 50
       then (s.historyStack.take (s.historyIndex + 1).toNat
            ++ [(⟨s.nodes, s.edges, s.groups⟩ : HistoryState)]).drop 1
       else s.historyStack.take (s.historyIndex + 1).toNat
            ++ [(⟨s.nodes, s.edges, s.groups⟩ : HistoryState)]) ∧
    (saveToHistory s).historyIndex =
      ((saveToHistory s).historyStack.length : Int) - 1 :=
  ⟨rfl, rfl⟩

/-- `saveToHistory` preserves the history invariant. -/
theorem hinv_saveToHistory (s : WFState) (h : HInv s) : HInv (saveToHistory s) := by
  have hk : (s.historyStack.take (s.historyIndex + 1).toNat).length ≤ 50 := by
    rw [List.length_take]
    exact le_trans (min_le_right _ _) h.1
  refine ⟨?_, ?_, ?_⟩
  · rw [(saveToHistory_stack s).1]
    split
    · next hlong =>
      simp only [List.length_drop, List.length_append, List.length_singleton] at hlong ⊢
      omega
    · next hlong =>
      simp only [List.length_append, List.length_singleton, not_lt] at hlong ⊢
      omega
  · rw [(saveToHistory_stack s).2]
    omega
  · rw [(saveToHistory_stack s).2]
    have : 0 < (saveToHistory s).historyStack.length := by
      rw [(saveToHistory_stack s).1]
      split
      · next hlong =>
        simp only [List.length_drop, List.length_append, List.length_singleton] at hlong ⊢
        omega
      · simp only [List.length_append, List.length_singleton]
        omega
    omega

/-- `undo` preserves the history invariant. -/
theorem hinv_undo (s : WFState) (h : HInv s) : HInv (undo s) := by
  obtain ⟨h50, hlo, hhi⟩ := h
  unfold undo
  by_cases hpos : s.historyIndex > 0
  · rw [if_pos hpos]
    rcases hg : s.historyStack.get? (s.historyIndex - 1).toNat with _ | hs <;>
        simp only [hg] <;>
      exact ⟨h50, by simp only [WFState.historyIndex]; omega,
        by simp only [WFState.historyIndex, WFState.historyStack]; omega⟩
  · rw [if_neg hpos]
    exact ⟨h50, hlo, hhi⟩

/-- `redo` preserves the history invariant. -/
theorem hinv_redo (s : WFState) (h : HInv s) : HInv (redo s) := by
  obtain ⟨h50, hlo, hhi⟩ := h
  unfold redo
  by_cases hpos : s.historyIndex < (s.historyStack.length : Int) - 1
  · rw [if_pos hpos]
    rcases hg : s.historyStack.get? (s.historyIndex + 1).toNat with _ | hs <;>
        simp only [hg] <;>
      exact ⟨h50, by simp only [WFState.historyIndex]; omega,
        by simp only [WFState.historyIndex, WFState.historyStack]; omega⟩
  · rw [if_neg hpos]
    exact ⟨h50, hlo, hhi⟩

/-- Any sequence of history calls preserves the invariant. -/
theorem hinv_runHist (ops : List HistOp) (s : WFState) (h : HInv s) :
    HInv (runHist ops s) := by
  induction ops generalizing s with
  | nil => exact h
  | cons op rest ih =>
    have hstep : HInv (applyHistOp s op) := by
      cases op with
      | hsave => exact hinv_saveToHistory s h
      | hundo => exact hinv_undo s h
      | hredo => exact hinv_redo s h
    exact ih _ hstep

/-- C9: the history-stack contract.  (1) Starting from any state satisfying
the history invariant (at most 50 snapshots, index in range — the initial
store state in particular), every sequence of `saveToHistory` / `undo` /
`redo` calls keeps the stack at ≤ 50 snapshots.  (2) `saveToHistory` discards
the snapshots past the current index, appends a snapshot of
`(nodes, edges, groups)`, evicts the oldest entry exactly when the new length
would exceed 50, and leaves the index at the last position.  (3)/(4) `undo` /
`redo` move the index by −1/+1 exactly when the guard holds (the resulting
index being in bounds under the invariant), replacing nodes, edges and groups
wholesale with the snapshot at the new index, and do nothing otherwise. -/
theorem c9_history_stack_contract :
    (∀ (ops : List HistOp) (s : WFState), HInv s →
      HInv (runHist ops s) ∧ (runHist ops s).historyStack.length ≤ 50) ∧
    (∀ s : WFState,
      (saveToHistory s).historyStack =
        (if (s.historyStack.take (s.historyIndex + 1).toNat
              ++ [(⟨s.nodes, s.edges, s.groups⟩ : HistoryState)]).length > 50
         then (s.historyStack.take (s.historyIndex + 1).toNat
              ++ [(⟨s.nodes, s.edges, s.groups⟩ : HistoryState)]).drop 1
         else s.historyStack.take (s.historyIndex + 1).toNat
              ++ [(⟨s.nodes, s.edges, s.groups⟩ : HistoryState)]) ∧
      (saveToHistory s).historyStack.getLast?
        = some (⟨s.nodes, s.edges, s.groups⟩ : HistoryState) ∧
      (saveToHistory s).historyIndex =
        ((saveToHistory s).historyStack.length : Int) - 1) ∧
    (∀ s : WFState, HInv s →
      (0 < s.historyIndex →
        ∃ hs, s.historyStack.get? (s.historyIndex - 1).toNat = some hs ∧
          undo s = { s with nodes := hs.nodes, edges := hs.edges,
                            groups := hs.groups,
                            historyIndex := s.historyIndex - 1,
                            hasUnsavedChanges := true }) ∧
      (¬ 0 < s.historyIndex → undo s = s)) ∧
    (∀ s : WFState, HInv s →
      (s.historyIndex < (s.historyStack.length : Int) - 1 →
        ∃ hs, s.historyStack.get? (s.historyIndex + 1).toNat = some hs ∧
          redo s = { s with nodes := hs.nodes, edges := hs.edges,
                            groups := hs.groups,
                            historyIndex := s.historyIndex + 1,
                            hasUnsavedChanges := true }) ∧
      (¬ s.historyIndex < (s.historyStack.length : Int) - 1 → redo s = s)) := by
  refine ⟨?_, ?_, ?_, ?_⟩
  · intro ops s h
    have := hinv_runHist ops s h
    exact ⟨this, this.1⟩
  · intro s
    refine ⟨(saveToHistory_stack s).1, ?_, (saveToHistory_stack s).2⟩
    rw [(saveToHistory_stack s).1]
    split
    · next hlong =>
      have hne : 1 ≤ (s.historyStack.take (s.historyIndex + 1).toNat).length := by
        simp only [List.length_append, List.length_singleton] at hlong
        omega
      rw [List.drop_append_of_le_length hne, List.getLast?_concat]
    · rw [List.getLast?_concat]
  · intro s h
    obtain ⟨h50, hlo, hhi⟩ := h
    constructor
    · intro hpos
      have hlt : (s.historyIndex - 1).toNat < s.historyStack.length := by omega
      have hget := List.get?_eq_get (l := s.historyStack) hlt
      refine ⟨_, hget, ?_⟩
      unfold undo
      rw [if_pos hpos]
      simp only [hget]
    · intro hneg
      unfold undo
      simp only [if_neg (by omega : ¬ s.historyIndex > 0)]
  · intro s h
    obtain ⟨h50, hlo, hhi⟩ := h
    constructor
    · intro hpos
      have hlt : (s.historyIndex + 1).toNat < s.historyStack.length := by omega
      have hget := List.get?_eq_get (l := s.historyStack) hlt
      refine ⟨_, hget, ?_⟩
      unfold redo
      rw [if_pos hpos]
      simp only [hget]
    · intro hneg
      unfold redo
      simp only [if_neg hneg]

/-- C9 witness: two saves and an undo from the initial store keep the
invariant. -/
theorem c9_witness :
    HInv ({} : WFState) ∧
    HInv (runHist [.hsave, .hsave, .hundo] ({} : WFState)) ∧
    (runHist [.hsave, .hsave, .hundo] ({} : WFState)).historyStack.length ≤ 50 :=
  ⟨⟨by decide, by decide, by decide⟩,
   (c9_history_stack_contract.1 [.hsave, .hsave, .hundo] ({} : WFState)
     ⟨by decide, by decide, by decide⟩).1,
   (c9_history_stack_contract.1 [.hsave, .hsave, .hundo] ({} : WFState)
     ⟨by decide, by decide, by decide⟩).2⟩

theorem ShapeOK.rfl (st : TopoSt) : ShapeOK st st :=
  ⟨Eq.refl _, fun _ h => h, fun _ h => Or.inl h, [], by simp⟩

theorem ShapeOK.trans {s1 s2 s3 : TopoSt} (h12 : ShapeOK s1 s2)
    (h23 : ShapeOK s2 s3) : ShapeOK s1 s3 := by
  obtain ⟨v12, m12, n12, t12, ht12⟩ := h12
  obtain ⟨v23, m23, n23, t23, ht23⟩ := h23
  refine ⟨v23.trans v12, fun x hx => m23 x (m12 x hx), ?_, t12 ++ t23, ?_⟩
  · intro y hy
    rcases n23 y hy with h | h
    · exact n12 y h
    · right
      rw [v12] at h
      exact h
  · rw [ht23, ht12, List.append_assoc]

/-- Accumulated facts for a fold of visits: shape plus membership of every
folded id in the final black set. -/
theorem visitFold_ok (f : String → TopoSt → Except ExecErr TopoSt)
    (hf : ∀ x st st', f x st = .ok st' → ShapeOK st st' ∧ x ∈ st'.visited) :
    ∀ (xs : List String) (st st' : TopoSt), visitFold f xs st = .ok st' →
      ShapeOK st st' ∧ ∀ x ∈ xs, x ∈ st'.visited := by
  intro xs
  induction xs with
  | nil =>
    intro st st' h
    cases h
    exact ⟨ShapeOK.rfl _, by simp⟩
  | cons x rest ih =>
    intro st st' h
    unfold visitFold at h
    rcases hx : f x st with e | st1
    · rw [hx] at h
      cases h
    · rw [hx] at h
      obtain ⟨hsh1, hmem1⟩ := hf x st st1 hx
      obtain ⟨hsh2, hmem2⟩ := ih st1 st' h
      refine ⟨hsh1.trans hsh2, ?_⟩
      intro y hy
      rcases List.mem_cons.1 hy with rfl | hy'
      · exact hsh2.2.1 y hmem1
      · exact hmem2 y hy'

/-- A successful `visit` satisfies the shape relation and blackens its
argument. -/
theorem visit_ok_shape (nodes : List WNode) (edges : List WEdge) :
    ∀ (fuel : Nat) (nid : String) (st st' : TopoSt),
      visit nodes edges fuel nid st = .ok st' →
      ShapeOK st st' ∧ nid ∈ st'.visited := by
  intro fuel
  induction fuel with
  | zero => intro nid st st' h; cases h
  | succ fuel ih =>
    intro nid st st' h
    unfold visit at h
    by_cases h1 : nid ∈ st.visited
    · rw [if_pos h1] at h
      cases h
      exact ⟨ShapeOK.rfl _, h1⟩
    · rw [if_neg h1] at h
      by_cases h2 : nid ∈ st.visiting
      · rw [if_pos h2] at h
        cases h
      · rw [if_neg h2] at h
        rcases hfold : visitFold (visit nodes edges fuel)
            ((edges.filter (fun e => e.target == nid)).map (·.source))
            { st with visiting := nid :: st.visiting } with e | st2
        · rw [hfold] at h
          cases h
        · rw [hfold] at h
          cases h
          obtain ⟨hsh, _⟩ := visitFold_ok _ (fun x a b hab => ih x a b hab) _ _ _ hfold
          obtain ⟨hvis, hmono, hnew, t, ht⟩ := hsh
          constructor
          · refine ⟨?_, ?_, ?_, ?_⟩
            · show (st2.visiting.erase nid) = st.visiting
              rw [hvis]
              exact List.erase_cons_head nid st.visiting
            · intro x hx
              exact List.mem_cons_of_mem _ (hmono x hx)
            · intro y hy
              rcases List.mem_cons.1 hy with rfl | hy'
              · exact Or.inr h2
              · rcases hnew y hy' with hl | hr
                · exact Or.inl hl
                · right
                  intro hc
                  exact hr (List.mem_cons_of_mem _ hc)
            · rcases hnd : nodes.find? (fun n => n.id == nid) with _ | nd
              · exact ⟨t, by simp [hnd, ht]⟩
              · exact ⟨t ++ [nd], by simp [hnd, ht]⟩
          · exact List.mem_cons_self _ _


/-- A fold of invariant-preserving visits preserves the invariant. -/
theorem visitFold_stok (nodes : List WNode) (edges : List WEdge)
    (f : String → TopoSt → Except ExecErr TopoSt)
    (hf : ∀ x st st', f x st = .ok st' →
      StOK nodes edges st → StOK nodes edges st') :
    ∀ (xs : List String) (st st' : TopoSt), visitFold f xs st = .ok st' →
      StOK nodes edges st → StOK nodes edges st' := by
  intro xs
  induction xs with
  | nil =>
    intro st st' h hst
    cases h
    exact hst
  | cons x rest ih =>
    intro st st' h hst
    unfold visitFold at h
    rcases hx : f x st with e | st1
    · rw [hx] at h
      cases h
    · rw [hx] at h
      exact ih st1 st' h (hf x st st1 hx hst)

/-- A successful `visit` preserves the DFS invariant. -/
theorem visit_ok_stok (nodes : List WNode) (edges : List WEdge) :
    ∀ (fuel : Nat) (nid : String) (st st' : TopoSt),
      visit nodes edges fuel nid st = .ok st' →
      StOK nodes edges st → StOK nodes edges st' := by
  intro fuel
  induction fuel with
  | zero => intro nid st st' h; cases h
  | succ fuel ih =>
    intro nid st st' h hst
    unfold visit at h
    by_cases h1 : nid ∈ st.visited
    · rw [if_pos h1] at h
      cases h
      exact hst
    · rw [if_neg h1] at h
      by_cases h2 : nid ∈ st.visiting
      · rw [if_pos h2] at h
        cases h
      · rw [if_neg h2] at h
        rcases hfold : visitFold (visit nodes edges fuel)
            ((edges.filter (fun e => e.target == nid)).map (·.source))
            { st with visiting := nid :: st.visiting } with e | st2
        · rw [hfold] at h
          cases h
        · rw [hfold] at h
          cases h
          have hst2 : StOK nodes edges st2 :=
            visitFold_stok nodes edges _ (fun x a b hab => ih x a b hab) _ _ _ hfold hst
          obtain ⟨hsh, hsrcs⟩ :=
            visitFold_ok _ (fun x a b hab => visit_ok_shape nodes edges fuel x a b hab)
              _ _ _ hfold
          obtain ⟨ha2, hb2, hd2, hc2⟩ := hst2
          have hnew := hsh.2.2.1
          have hnid_not_vis2 : nid ∉ st2.visited := by
            intro hc
            rcases hnew nid hc with hl | hr
            · exact h1 hl
            · exact hr (List.mem_cons_self _ _)
          rcases hnd : nodes.find? (fun n => n.id == nid) with _ | nd
          · -- nid is not the id of any node: the sorted list is unchanged
            have hnid_not : nid ∉ nodes.map WNode.id := by
              intro hc
              obtain ⟨x, hx, hxid⟩ := List.mem_map.1 hc
              have := List.find?_eq_none.1 hnd x hx
              simp [hxid] at this
            simp only [hnd]
            refine ⟨?_, ?_, ?_, ?_⟩
            · intro id hid hids
              rcases List.mem_cons.1 hid with rfl | hid'
              · exact absurd hids hnid_not
              · exact ha2 id hid' hids
            · intro x hx
              exact List.mem_cons_of_mem _ (hb2 x hx)
            · exact hd2
            · intro e he j hj hjt
              obtain ⟨hsrc, hidx⟩ := hc2 e he j hj hjt
              exact ⟨List.mem_cons_of_mem _ hsrc, hidx⟩
          · -- nid is the id of node nd: it is appended to the sorted list
            have hnd_mem : nd ∈ nodes := List.mem_of_find?_eq_some hnd
            have hnd_id : nd.id = nid := by
              have := List.find?_some hnd
              simpa using this
            have hnid_not_sorted : nid ∉ st2.sorted.map WNode.id := by
              intro hc
              obtain ⟨x, hx, hxid⟩ := List.mem_map.1 hc
              have := hb2 x hx
              rw [hxid] at this
              exact hnid_not_vis2 this
            simp only [hnd]
            refine ⟨?_, ?_, ?_, ?_⟩
            · intro id hid hids
              rcases List.mem_cons.1 hid with rfl | hid'
              · rw [List.map_append]
                exact List.mem_append_right _ (by simp [hnd_id])
              · rw [List.map_append]
                exact List.mem_append_left _ (ha2 id hid' hids)
            · intro x hx
              rcases List.mem_append.1 hx with hx' | hx'
              · exact List.mem_cons_of_mem _ (hb2 x hx')
              · have : x = nd := by simpa using hx'
                rw [this, hnd_id]
                exact List.mem_cons_self _ _
            · rw [List.map_append]
              refine List.Nodup.append hd2 (by simp) ?_
              intro a ha hb
              simp only [List.map_cons, List.map_nil, List.mem_singleton] at hb
              rw [hb, hnd_id] at ha
              exact hnid_not_sorted ha
            · intro e he j hj hjt
              by_cases hj2 : j < st2.sorted.length
              · have hget : (st2.sorted ++ [nd]).get ⟨j, hj⟩ = st2.sorted.get ⟨j, hj2⟩ :=
                  List.get_append j hj2
                rw [hget] at hjt
                obtain ⟨hsrc, hidx⟩ := hc2 e he j hj2 hjt
                refine ⟨List.mem_cons_of_mem _ hsrc, ?_⟩
                intro hsrcid
                obtain ⟨i, hi, hij, hieq⟩ := hidx hsrcid
                have hi' : i < (st2.sorted ++ [nd]).length := by
                  simp only [List.length_append, List.length_singleton]
                  omega
                refine ⟨i, hi', hij, ?_⟩
                rw [List.get_append i hi]
                exact hieq
              · -- j points at the freshly appended node nd
                have hjlen : j = st2.sorted.length := by
                  simp only [List.length_append, List.length_singleton] at hj
                  omega
                have hget : (st2.sorted ++ [nd]).get ⟨j, hj⟩ = nd := by
                  subst hjlen
                  simp
                rw [hget] at hjt
                have htarget : e.target = nid := by rw [← hjt, hnd_id]
                have hsrc_in : e.source ∈ st2.visited := by
                  refine hsrcs e.source ?_
                  refine List.mem_map.2 ⟨e, ?_, rfl⟩
                  refine List.mem_filter.2 ⟨he, ?_⟩
                  simp [htarget]
                refine ⟨List.mem_cons_of_mem _ hsrc_in, ?_⟩
                intro hsrcid
                have hmem_sorted : e.source ∈ st2.sorted.map WNode.id :=
                  ha2 e.source hsrc_in hsrcid
                obtain ⟨x, hx, hxid⟩ := List.mem_map.1 hmem_sorted
                obtain ⟨i, hi⟩ := List.mem_iff_get.1 hx
                have hi2 : (i : Nat) < (st2.sorted ++ [nd]).length := by
                  simp only [List.length_append, List.length_singleton]
                  omega
                refine ⟨i, hi2, by omega, ?_⟩
                rw [List.get_append i i.isLt, hi]
                exact hxid

/-- What a successful topological sort guarantees: the output lists every node
id exactly once, in an order where every edge between nodes goes forward. -/
theorem topoSort_ok_facts (nodes : List WNode) (edges : List WEdge)
    (sorted : List WNode) (h : topoSort nodes edges = .ok sorted) :
    (sorted.map WNode.id).Nodup ∧
    (∀ id ∈ nodes.map WNode.id, id ∈ sorted.map WNode.id) ∧
    (∀ e ∈ edges, e.source ∈ nodes.map WNode.id →
      ∀ j, ∀ hj : j < sorted.length, (sorted.get ⟨j, hj⟩).id = e.target →
        ∃ i, ∃ hi : i < sorted.length, i < j ∧
          (sorted.get ⟨i, hi⟩).id = e.source) := by
  unfold topoSort at h
  dsimp only at h
  rcases hfold : visitFold (visit nodes edges (nodes.length + edges.length + 1))
      (nodes.map (·.id)) ⟨[], [], []⟩ with e | st
  · rw [hfold] at h
    cases h
  · rw [hfold] at h
    cases h
    have hst0 : StOK nodes edges ⟨[], [], []⟩ := by
      refine ⟨?_, ?_, ?_, ?_⟩
      · intro id hid
        simp at hid
      · intro nd hnd
        simp at hnd
      · simp
      · intro e he j hj
        simp at hj
    have hst : StOK nodes edges st :=
      visitFold_stok nodes edges _
        (fun x a b hab => visit_ok_stok nodes edges _ x a b hab) _ _ _ hfold hst0
    obtain ⟨hsh, hall⟩ :=
      visitFold_ok _
        (fun x a b hab => visit_ok_shape nodes edges _ x a b hab) _ _ _ hfold
    obtain ⟨ha, hb, hd, hc⟩ := hst
    refine ⟨hd, ?_, ?_⟩
    · intro id hid
      exact ha id (hall id hid) hid
    · intro e he hsrc j hj hjt
      obtain ⟨_, hidx⟩ := hc e he j hj hjt
      exact hidx hsrc

/-- Along any node-to-node path of the graph, a successful topological
order's positions strictly increase. -/
theorem topoSort_path_increases (nodes : List WNode) (edges : List WEdge)
    (sorted : List WNode) (h : topoSort nodes edges = .ok sorted) :
    ∀ a b : String, EdgePath nodes edges a b →
      (sorted.map WNode.id).indexOf a < (sorted.map WNode.id).indexOf b := by
  obtain ⟨hd, hcomplete, horder⟩ := topoSort_ok_facts nodes edges sorted h
  have step : ∀ (e : WEdge), e ∈ edges → ∀ a b : String, e.source = a →
      e.target = b → a ∈ nodes.map WNode.id → b ∈ nodes.map WNode.id →
      (sorted.map WNode.id).indexOf a < (sorted.map WNode.id).indexOf b := by
    intro e he a b hs ht ha hb
    have hbmem : b ∈ sorted.map WNode.id := hcomplete b hb
    have hblt : (sorted.map WNode.id).indexOf b < (sorted.map WNode.id).length :=
      List.indexOf_lt_length.2 hbmem
    have hblt' : (sorted.map WNode.id).indexOf b < sorted.length := by
      simpa using hblt
    have hbj : (sorted.get ⟨(sorted.map WNode.id).indexOf b, hblt'⟩).id = e.target := by
      have := List.indexOf_get (a := b) (l := sorted.map WNode.id) hblt
      rw [List.get_map] at this
      rw [this, ht]
    obtain ⟨i, hi, hij, hieq⟩ :=
      horder e he (hs ▸ ha) ((sorted.map WNode.id).indexOf b) hblt' hbj
    have hai : (sorted.map WNode.id).get ⟨i, by simpa using hi⟩ = a := by
      rw [List.get_map]
      rw [hieq, hs]
    have : (sorted.map WNode.id).indexOf a = i := by
      have hmem : a ∈ sorted.map WNode.id := hai ▸ List.get_mem _ _ _
      have halt : (sorted.map WNode.id).indexOf a < (sorted.map WNode.id).length :=
        List.indexOf_lt_length.2 hmem
      have hga : (sorted.map WNode.id).get ⟨(sorted.map WNode.id).indexOf a, halt⟩ = a :=
        List.indexOf_get halt
      exact congrArg Fin.val (hd.get_inj_iff.1 (hga.trans hai.symm))
    omega
  intro a b hpath
  induction hpath with
  | single e he hs ht ha hb => exact step e he _ _ hs ht ha hb
  | cons e he hs ht ha hb rest ih => exact lt_trans (step e he _ _ hs ht ha hb) ih

/-- A graph with a directed cycle among its nodes admits no successful
topological sort. -/
theorem topoSort_cycle_not_ok (nodes : List WNode) (edges : List WEdge)
    (hcyc : hasCycle nodes edges) (sorted : List WNode) :
    topoSort nodes edges ≠ .ok sorted := by
  intro h
  obtain ⟨a, hpath⟩ := hcyc
  exact lt_irrefl _ (topoSort_path_increases nodes edges sorted h a a hpath)

/-- A grey set drawn without repetition from the universe is no larger than
the universe. -/
theorem visiting_le_card (U : Finset String) (l : List String)
    (hsub : ∀ x ∈ l, x ∈ U) (hnd : l.Nodup) : l.length ≤ U.card := by
  have h1 : l.toFinset.card = l.length := List.toFinset_card_of_nodup hnd
  have h2 : l.toFinset ⊆ U := by
    intro x hx
    exact hsub x (List.mem_toFinset.1 hx)
  calc l.length = l.toFinset.card := h1.symm
    _ ≤ U.card := Finset.card_le_card h2

/-- Folded visits never run out of fuel when each single visit cannot. -/
theorem visitFold_no_fuel (nodes : List WNode) (edges : List WEdge) (fuel : Nat)
    (hv : ∀ (nid : String) (st : TopoSt), nid ∈ topoUniverse nodes edges →
      (∀ x ∈ st.visiting, x ∈ topoUniverse nodes edges) → st.visiting.Nodup →
      (topoUniverse nodes edges).card + 1 ≤ fuel + st.visiting.length →
      visit nodes edges fuel nid st ≠ .error .fuelExhausted) :
    ∀ (xs : List String) (st : TopoSt),
      (∀ x ∈ xs, x ∈ topoUniverse nodes edges) →
      (∀ x ∈ st.visiting, x ∈ topoUniverse nodes edges) → st.visiting.Nodup →
      (topoUniverse nodes edges).card + 1 ≤ fuel + st.visiting.length →
      visitFold (visit nodes edges fuel) xs st ≠ .error .fuelExhausted := by
  intro xs
  induction xs with
  | nil =>
    intro st _ _ _ _ h
    cases h
  | cons x rest ih =>
    intro st hxs hvis hnd hbound
    unfold visitFold
    rcases hx : visit nodes edges fuel x st with e | st1
    · have : e ≠ .fuelExhausted := by
        intro hc
        exact hv x st (hxs x (List.mem_cons_self _ _)) hvis hnd hbound (hc ▸ hx)
      simp [this]
    · have hsh := (visit_ok_shape nodes edges fuel x st st1 hx).1
      have hvis1 : st1.visiting = st.visiting := hsh.1
      simp only []
      refine ih st1 (fun y hy => hxs y (List.mem_cons_of_mem _ hy)) ?_ ?_ ?_
      · rw [hvis1]; exact hvis
      · rw [hvis1]; exact hnd
      · rw [hvis1]; exact hbound

/-- A single visit never runs out of fuel when the fuel exceeds the number of
universe ids that can still be greyed. -/
theorem visit_no_fuel (nodes : List WNode) (edges : List WEdge) :
    ∀ (fuel : Nat) (nid : String) (st : TopoSt),
      nid ∈ topoUniverse nodes edges →
      (∀ x ∈ st.visiting, x ∈ topoUniverse nodes edges) → st.visiting.Nodup →
      (topoUniverse nodes edges).card + 1 ≤ fuel + st.visiting.length →
      visit nodes edges fuel nid st ≠ .error .fuelExhausted := by
  intro fuel
  induction fuel with
  | zero =>
    intro nid st _ hvis hnd hbound
    have := visiting_le_card (topoUniverse nodes edges) st.visiting hvis hnd
    omega
  | succ fuel ih =>
    intro nid st hnid hvis hnd hbound
    unfold visit
    by_cases h1 : nid ∈ st.visited
    · rw [if_pos h1]
      intro h
      cases h
    · rw [if_neg h1]
      by_cases h2 : nid ∈ st.visiting
      · rw [if_pos h2]
        intro h
        cases h
      · rw [if_neg h2]
        have hfold : visitFold (visit nodes edges fuel)
            ((edges.filter (fun e => e.target == nid)).map (·.source))
            { st with visiting := nid :: st.visiting } ≠ .error .fuelExhausted := by
          refine visitFold_no_fuel nodes edges fuel ih _ _ ?_ ?_ ?_ ?_
          · intro y hy
            obtain ⟨e, he, hes⟩ := List.mem_map.1 hy
            have he' : e ∈ edges := (List.mem_filter.1 he).1
            unfold topoUniverse
            rw [List.mem_toFinset]
            exact List.mem_append_right _ (List.mem_map.2 ⟨e, he', hes⟩)
          · intro y hy
            rcases List.mem_cons.1 hy with rfl | hy'
            · exact hnid
            · exact hvis y hy'
          · exact List.nodup_cons.2 ⟨h2, hnd⟩
          · simp only [List.length_cons]
            omega
        rcases hf : visitFold (visit nodes edges fuel)
            ((edges.filter (fun e => e.target == nid)).map (·.source))
            { st with visiting := nid :: st.visiting } with e | st2
        · rw [hf]
          have : e ≠ .fuelExhausted := fun hc => hfold (hc ▸ hf)
          simp [this]
        · rw [hf]
          simp

/-- The fuel `topoSort` supplies is always sufficient: the scheduling phase
can only end in success or in a detected cycle, never in fuel exhaustion. -/
theorem topoSort_no_fuel (nodes : List WNode) (edges : List WEdge) :
    topoSort nodes edges ≠ .error .fuelExhausted := by
  unfold topoSort
  dsimp only
  have hcard : (topoUniverse nodes edges).card + 1 ≤
      nodes.length + edges.length + 1 := by
    have := List.toFinset_card_le (l := nodes.map WNode.id ++ edges.map WEdge.source)
    simp only [List.length_append, List.length_map] at this
    unfold topoUniverse
    omega
  have hfold := visitFold_no_fuel nodes edges (nodes.length + edges.length + 1)
    (visit_no_fuel nodes edges _) (nodes.map (·.id)) ⟨[], [], []⟩
    (fun y hy => by
      unfold topoUniverse
      rw [List.mem_toFinset]
      exact List.mem_append_left _ hy)
    (fun y hy => absurd hy (List.not_mem_nil _))
    List.nodup_nil
    (by simpa using hcard)
  rcases hf : visitFold (visit nodes edges (nodes.length + edges.length + 1))
      (nodes.map (·.id)) ⟨[], [], []⟩ with e | st
  · rw [hf]
    have : e ≠ .fuelExhausted := fun hc => hfold (hc ▸ hf)
    simp [this]
  · rw [hf]
    simp

/-- On a graph with a cycle among its nodes, the scheduling phase throws
exactly the cycle error. -/
theorem topoSort_cycle_error (nodes : List WNode) (edges : List WEdge)
    (hcyc : hasCycle nodes edges) :
    topoSort nodes edges = .error .cycleDetected := by
  rcases h : topoSort nodes edges with e | sorted
  · cases e with
    | cycleDetected => rfl
    | fuelExhausted => exact absurd h (topoSort_no_fuel nodes edges)
  · exact absurd h (topoSort_cycle_not_ok nodes edges hcyc sorted)

/-- C1: when the edge set contains a directed cycle among the nodes, an
`executeWorkflow` call on an idle scheduler terminates with the cycle error
before any node is processed: the node list (hence every node's `data`) is
unchanged, no request is issued to the generation backend, no node is
dispatched, and the scheduler is back to idle (`isRunning = false`,
`currentNodeId = null`). -/
theorem c1_cycle_aborts_run (B : Backend) (startFrom : Option String)
    (s : WFState) (hrun : s.isRunning = false)
    (hcyc : hasCycle s.nodes s.edges) :
    (executeWorkflow B startFrom s).1.nodes = s.nodes ∧
    (executeWorkflow B startFrom s).2.1.requests = [] ∧
    (executeWorkflow B startFrom s).2.1.processed = [] ∧
    (executeWorkflow B startFrom s).1.isRunning = false ∧
    (executeWorkflow B startFrom s).1.currentNodeId = none ∧
    (executeWorkflow B startFrom s).2.2 = .errored .cycleDetected := by
  have hT := topoSort_cycle_error s.nodes s.edges hcyc
  have hexec : executeWorkflow B startFrom s =
      (haltState { s with isRunning := true, pausedAtNodeId := none }, {},
        .errored .cycleDetected) := by
    unfold executeWorkflow
    rw [if_neg (by simp [hrun])]
    dsimp only
    rw [hT]
  rw [hexec]
  exact ⟨rfl, rfl, rfl, rfl, rfl, rfl⟩

/-- C1 witness: the two-node cycle `a → b → a` aborts with nodes untouched and
no request issued. -/
theorem c1_witness :
    w1State.isRunning = false ∧ hasCycle w1State.nodes w1State.edges ∧
    (executeWorkflow trivBackend none w1State).1.nodes = w1State.nodes ∧
    (executeWorkflow trivBackend none w1State).2.1.requests = [] ∧
    (executeWorkflow trivBackend none w1State).2.2 = .errored .cycleDetected := by
  have hcyc : hasCycle w1State.nodes w1State.edges := by
    refine ⟨"a", .cons { id := "e1", source := "a", target := "b" }
      (by decide) rfl rfl (by decide) (by decide)
      (.single { id := "e2", source := "b", target := "a" }
        (by decide) rfl rfl (by decide) (by decide))⟩
  have h := c1_cycle_aborts_run trivBackend none w1State rfl hcyc
  exact ⟨rfl, hcyc, h.1, h.2.1, h.2.2.2.2.2⟩

/-- The fold of `deduplicateWorkflowNodes` is the recursive keep-first
deduplication. -/
theorem deduplicateWorkflowNodes_eq_rec (l : List WNode) :
    deduplicateWorkflowNodes l = dedupRec [] l := by
  suffices h : ∀ (l : List WNode) (seen : List String) (acc : List WNode),
      (l.foldl
        (fun (a : List String × List WNode) nd =>
          if nd.id ∈ a.1 then a else (nd.id :: a.1, a.2 ++ [nd]))
        (seen, acc)).2 = acc ++ dedupRec seen l by
    have := h l [] []
    unfold deduplicateWorkflowNodes
    simpa using this
  intro l
  induction l with
  | nil => intro seen acc; simp [dedupRec]
  | cons nd rest ih =>
    intro seen acc
    by_cases hmem : nd.id ∈ seen
    · simp only [List.foldl_cons, if_pos hmem, dedupRec, ih]
    · simp only [List.foldl_cons, if_neg hmem, dedupRec, ih, List.append_assoc,
        List.singleton_append]

/-- Every entry of the deduplicated list has an id unseen at entry. -/
theorem dedupRec_id_not_seen (l : List WNode) :
    ∀ (seen : List String) (nd : WNode), nd ∈ dedupRec seen l → nd.id ∉ seen := by
  induction l with
  | nil => intro seen nd h; cases h
  | cons x rest ih =>
    intro seen nd h
    unfold dedupRec at h
    by_cases hmem : x.id ∈ seen
    · rw [if_pos hmem] at h
      exact ih seen nd h
    · rw [if_neg hmem] at h
      rcases List.mem_cons.1 h with rfl | h'
      · exact hmem
      · have := ih (x.id :: seen) nd h'
        intro hc
        exact this (List.mem_cons_of_mem _ hc)

/-- The deduplicated list keeps for each id exactly the first node carrying
it: lookup by id in the original list returns the kept node. -/
theorem dedupRec_find_first (l : List WNode) :
    ∀ (seen : List String) (nd : WNode), nd ∈ dedupRec seen l →
      l.find? (fun m => m.id == nd.id) = some nd := by
  induction l with
  | nil => intro seen nd h; cases h
  | cons x rest ih =>
    intro seen nd h
    unfold dedupRec at h
    by_cases hmem : x.id ∈ seen
    · rw [if_pos hmem] at h
      have hne : x.id ≠ nd.id := by
        intro hc
        exact dedupRec_id_not_seen rest seen nd h (hc ▸ hmem)
      rw [List.find?_cons_of_neg _ (by simp [hne]), ih seen nd h]
    · rw [if_neg hmem] at h
      rcases List.mem_cons.1 h with rfl | h'
      · rw [List.find?_cons_of_pos _ (by simp)]
      · have hne : x.id ≠ nd.id := by
          intro hc
          exact dedupRec_id_not_seen rest (x.id :: seen) nd h'
            (hc ▸ List.mem_cons_self _ _)
        rw [List.find?_cons_of_neg _ (by simp [hne]), ih (x.id :: seen) nd h']

/-- The deduplicated list has no duplicate ids. -/
theorem dedupRec_nodup (l : List WNode) :
    ∀ seen : List String, ((dedupRec seen l).map WNode.id).Nodup := by
  induction l with
  | nil => intro seen; simp [dedupRec]
  | cons x rest ih =>
    intro seen
    unfold dedupRec
    by_cases hmem : x.id ∈ seen
    · rw [if_pos hmem]
      exact ih seen
    · rw [if_neg hmem]
      simp only [List.map_cons, List.nodup_cons]
      refine ⟨?_, ih (x.id :: seen)⟩
      intro hc
      obtain ⟨nd, hnd, hndid⟩ := List.mem_map.1 hc
      exact dedupRec_id_not_seen rest (x.id :: seen) nd hnd
        (hndid ▸ List.mem_cons_self _ _)

/-- Deduplication yields a sublist of the input. -/
theorem dedupRec_sublist (l : List WNode) :
    ∀ seen : List String, (dedupRec seen l).Sublist l := by
  induction l with
  | nil => intro seen; simp [dedupRec]
  | cons x rest ih =>
    intro seen
    unfold dedupRec
    by_cases hmem : x.id ∈ seen
    · rw [if_pos hmem]
      exact (ih seen).cons x
    · rw [if_neg hmem]
      exact (ih (x.id :: seen)).cons₂ x

/-- Every input id survives deduplication (or was already seen). -/
theorem dedupRec_complete (l : List WNode) :
    ∀ (seen : List String) (nd : WNode), nd ∈ l →
      nd.id ∈ seen ∨ nd.id ∈ (dedupRec seen l).map WNode.id := by
  induction l with
  | nil => intro seen nd h; cases h
  | cons x rest ih =>
    intro seen nd h
    unfold dedupRec
    rcases List.mem_cons.1 h with rfl | h'
    · by_cases hmem : nd.id ∈ seen
      · exact Or.inl hmem
      · rw [if_neg hmem]
        right
        simp
    · by_cases hmem : x.id ∈ seen
      · rw [if_pos hmem]
        exact ih seen nd h'
      · rw [if_neg hmem]
        rcases ih (x.id :: seen) nd h' with hl | hr
        · rcases List.mem_cons.1 hl with heq | hseen
          · right
            simp [heq]
          · exact Or.inl hseen
        · right
          simp only [List.map_cons, List.mem_cons]
          exact Or.inr hr

/-- A suffix found in a node list is bounded by `findMaxNodeSuffix`. -/
theorem findMaxNodeSuffix_ge (nodes : List WNode) (nd : WNode) (v : Nat)
    (hmem : nd ∈ nodes) (hv : matchSuffix nd.id = some v) :
    v ≤ findMaxNodeSuffix nodes := by
  suffices h : ∀ (l : List WNode) (acc : Nat),
      acc ≤ l.foldl
        (fun mx m => match matchSuffix m.id with
          | some w => max mx w
          | none => mx) acc ∧
      (∀ m ∈ l, ∀ w, matchSuffix m.id = some w →
        w ≤ l.foldl
          (fun mx m => match matchSuffix m.id with
            | some w => max mx w
            | none => mx) acc) by
    exact (h nodes 0).2 nd hmem v hv
  intro l
  induction l with
  | nil =>
    intro acc
    exact ⟨le_refl _, fun m hm => absurd hm (List.not_mem_nil m)⟩
  | cons x rest ih =>
    intro acc
    constructor
    · rcases hx : matchSuffix x.id with _ | w
      · simpa [hx] using (ih acc).1
      · simp only [List.foldl_cons, hx]
        exact le_trans (le_max_left acc w) (ih (max acc w)).1
    · intro m hm w hw
      rcases List.mem_cons.1 hm with rfl | hm'
      · rcases hx : matchSuffix m.id with _ | w'
        · rw [hx] at hw
          cases hw
        · rw [hx] at hw
          cases hw
          simp only [List.foldl_cons, hx]
          exact le_trans (le_max_right acc w) (ih (max acc w)).1
      · rcases hx : matchSuffix x.id with _ | w'
        · simp only [List.foldl_cons, hx]
          exact (ih acc).2 m hm' w hw
        · simp only [List.foldl_cons, hx]
          exact (ih (max acc w')).2 m hm' w hw

/-- C7 (amended): `loadWorkflow` installs the file's node list with duplicate
ids removed keeping the first occurrence of each id (the kept node is what
`find?` by its id returns on the file list, the result has no duplicate ids,
is a sublist of the file list, and covers every file id), raises the internal
id counter to at least every loaded numeric suffix, and resets `isRunning` and
`currentNodeId`; `pausedAtNodeId` and `clipboard`, however, keep their prior
values. -/
theorem c7_loadWorkflow_postcondition (wf : WorkflowFile)
    (cfg : Option String) (s : WFState) :
    (loadWorkflow wf cfg s).nodes = deduplicateWorkflowNodes wf.nodes ∧
    (((loadWorkflow wf cfg s).nodes.map WNode.id).Nodup ∧
      (loadWorkflow wf cfg s).nodes.Sublist wf.nodes ∧
      (∀ nd ∈ wf.nodes, nd.id ∈ (loadWorkflow wf cfg s).nodes.map WNode.id) ∧
      (∀ nd ∈ (loadWorkflow wf cfg s).nodes,
        wf.nodes.find? (fun m => m.id == nd.id) = some nd)) ∧
    (∀ nd ∈ (loadWorkflow wf cfg s).nodes, ∀ v, matchSuffix nd.id = some v →
      v ≤ (loadWorkflow wf cfg s).nodeIdCounter) ∧
    (loadWorkflow wf cfg s).isRunning = false ∧
    (loadWorkflow wf cfg s).currentNodeId = none ∧
    (loadWorkflow wf cfg s).pausedAtNodeId = s.pausedAtNodeId ∧
    (loadWorkflow wf cfg s).clipboard = s.clipboard := by
  have hn : (loadWorkflow wf cfg s).nodes = dedupRec [] wf.nodes := by
    show deduplicateWorkflowNodes wf.nodes = _
    exact deduplicateWorkflowNodes_eq_rec wf.nodes
  refine ⟨rfl, ⟨?_, ?_, ?_, ?_⟩, ?_, rfl, rfl, rfl, rfl⟩
  · rw [hn]
    exact dedupRec_nodup wf.nodes []
  · rw [hn]
    exact dedupRec_sublist wf.nodes []
  · intro nd hmem
    rw [hn]
    rcases dedupRec_complete wf.nodes [] nd hmem with hl | hr
    · cases hl
    · exact hr
  · intro nd hmem
    rw [hn] at hmem
    exact dedupRec_find_first wf.nodes [] nd hmem
  · intro nd hmem v hv
    show v ≤ max s.nodeIdCounter (findMaxNodeSuffix (deduplicateWorkflowNodes wf.nodes))
    have : v ≤ findMaxNodeSuffix (deduplicateWorkflowNodes wf.nodes) :=
      findMaxNodeSuffix_ge _ nd v hmem hv
    omega

/-- A found index splits the list there, and the element found satisfies the
predicate. -/
theorem findIdx?_drop (p : WNode → Bool) :
    ∀ (l : List WNode) (j : Nat), l.findIdx? p = some j →
      ∃ nd rest, l.drop j = nd :: rest ∧ p nd = true := by
  intro l
  induction l with
  | nil => intro j h; simp [List.findIdx?_nil] at h
  | cons x rest ih =>
    intro j h
    rw [List.findIdx?_cons] at h
    by_cases hp : p x
    · rw [if_pos hp] at h
      cases h
      exact ⟨x, rest, rfl, hp⟩
    · rw [if_neg hp, List.findIdx?_succ] at h
      rcases hr : rest.findIdx? p with _ | j'
      · rw [hr] at h
        cases h
      · rw [hr] at h
        simp only [Option.map_some'] at h
        cases h
        obtain ⟨nd, rest', hdrop, hnd⟩ := ih j' hr
        exact ⟨nd, rest', by simpa using hdrop, hnd⟩

/-- Dispatching a node never touches the processed-ids trace. -/
theorem dispatchNode_processed (B : Backend) (nd : WNode) (s : WFState)
    (tr : RunTrace) :
    (dispatchNode B nd s tr).2.2.processed = tr.processed := by
  unfold dispatchNode
  cases nd.type <;> dsimp only <;> (repeat' split) <;> rfl

/-- The run loop only appends to the processed-ids trace. -/
theorem runLoop_processed_extends (B : Backend) (edges0 : List WEdge)
    (isResuming : Bool) (startFrom : Option String) :
    ∀ (l : List WNode) (s : WFState) (tr : RunTrace),
      ∃ t, (runLoop B edges0 isResuming startFrom l s tr).2.1.processed =
        tr.processed ++ t := by
  intro l
  induction l with
  | nil => intro s tr; exact ⟨[], by simp [runLoop]⟩
  | cons nd rest ih =>
    intro s tr
    unfold runLoop
    by_cases hrun : !s.isRunning
    · rw [if_pos hrun]
      exact ⟨[], by simp⟩
    · rw [if_neg hrun]
      dsimp only
      split
      · exact ⟨[], by simp⟩
      · rcases hd : dispatchNode B nd { s with currentNodeId := some nd.id }
            { tr with processed := tr.processed ++ [nd.id] } with ⟨res, s', tr'⟩
        have hp : tr'.processed = tr.processed ++ [nd.id] := by
          have := dispatchNode_processed B nd { s with currentNodeId := some nd.id }
            { tr with processed := tr.processed ++ [nd.id] }
          rw [hd] at this
          exact this
        cases res with
        | halt =>
          exact ⟨[nd.id], hp⟩
        | cont =>
          obtain ⟨t, ht⟩ := ih s' tr'
          exact ⟨[nd.id] ++ t, by rw [ht, hp, List.append_assoc]⟩

/-- A node at the head of the loop is dispatched (recorded as processed)
whenever the scheduler is running and the pause check does not fire. -/
theorem runLoop_head_processed (B : Backend) (edges0 : List WEdge)
    (isResuming : Bool) (startFrom : Option String) (nd : WNode)
    (rest : List WNode) (s : WFState) (tr : RunTrace)
    (hrun : s.isRunning = true)
    (hskip : (!(isResuming && startFrom == some nd.id) &&
      hasPauseIncoming edges0 nd.id) = false) :
    nd.id ∈ (runLoop B edges0 isResuming startFrom (nd :: rest) s tr).2.1.processed := by
  unfold runLoop
  rw [if_neg (by simp [hrun])]
  dsimp only
  rw [if_neg (by rw [hskip]; decide)]
  rcases hd : dispatchNode B nd { s with currentNodeId := some nd.id }
      { tr with processed := tr.processed ++ [nd.id] } with ⟨res, s', tr'⟩
  have hp : tr'.processed = tr.processed ++ [nd.id] := by
    have h2 := dispatchNode_processed B nd { s with currentNodeId := some nd.id }
      { tr with processed := tr.processed ++ [nd.id] }
    rw [hd] at h2
    simpa using h2
  cases res with
  | halt =>
    dsimp only
    rw [hp]
    simp
  | cont =>
    dsimp only
    obtain ⟨t, ht⟩ := runLoop_processed_extends B edges0 isResuming startFrom rest s' tr'
    rw [ht, hp]
    simp

/-- Resuming from the paused-at node dispatches it: the pause check is skipped
for the exact node execution resumes from. -/
theorem resume_processes_paused_node (B : Backend) (s : WFState) (bId : String)
    (sorted : List WNode) (j : Nat)
    (hrun : s.isRunning = false)
    (hpause : s.pausedAtNodeId = some bId)
    (hsort : topoSort s.nodes s.edges = .ok sorted)
    (hfind : sorted.findIdx? (fun n => n.id == bId) = some j) :
    bId ∈ (executeWorkflow B (some bId) s).2.1.processed := by
  obtain ⟨nd, rest, hdrop, hnd⟩ := findIdx?_drop _ sorted j hfind
  have hndid : nd.id = bId := by simpa using hnd
  have hexec : executeWorkflow B (some bId) s =
      runLoop B s.edges true (some bId) (sorted.drop j)
        { s with isRunning := true, pausedAtNodeId := none } {} := by
    unfold executeWorkflow
    rw [if_neg (by simp [hrun])]
    simp only [hpause, hsort, hfind, beq_self_eq_true]
  rw [hexec, hdrop]
  have h := runLoop_head_processed B s.edges true (some bId) nd rest
    { s with isRunning := true, pausedAtNodeId := none } {} rfl (by simp [hndid])
  rw [hndid] at h
  exact h

/-- Dispatching a node of a pure type (imageInput, prompt, annotation,
output) always continues and touches neither the run flags nor the edges. -/
theorem dispatchNode_pure (B : Backend) (nd : WNode) (s : WFState)
    (tr : RunTrace) (hp : pureNodeType nd.type) :
    (dispatchNode B nd s tr).1 = .cont ∧
    (dispatchNode B nd s tr).2.1.isRunning = s.isRunning ∧
    (dispatchNode B nd s tr).2.1.pausedAtNodeId = s.pausedAtNodeId ∧
    (dispatchNode B nd s tr).2.1.edges = s.edges ∧
    (dispatchNode B nd s tr).2.2 = tr := by
  rcases hp with h | h | h | h <;> unfold dispatchNode <;> rw [h] <;>
    dsimp only <;> (repeat' split) <;> exact ⟨rfl, rfl, rfl, rfl, rfl⟩

/-- Running a prefix of pause-free pure nodes reaches the pause-flagged node
and pauses there: the paused-at marker is set to it, the scheduler stops, and
exactly the prefix was dispatched. -/
theorem runLoop_pause_at (B : Backend) (edges0 : List WEdge) (isResuming : Bool)
    (startFrom : Option String) :
    ∀ (pre : List WNode) (bNode : WNode) (post : List WNode) (s : WFState)
      (tr : RunTrace),
      s.isRunning = true →
      (∀ nd ∈ pre, pureNodeType nd.type) →
      (∀ nd ∈ pre, hasPauseIncoming edges0 nd.id = false) →
      (isResuming && (startFrom == some bNode.id)) = false →
      hasPauseIncoming edges0 bNode.id = true →
      (runLoop B edges0 isResuming startFrom (pre ++ bNode :: post) s tr).1.pausedAtNodeId
          = some bNode.id ∧
      (runLoop B edges0 isResuming startFrom (pre ++ bNode :: post) s tr).1.isRunning
          = false ∧
      (runLoop B edges0 isResuming startFrom (pre ++ bNode :: post) s tr).1.currentNodeId
          = none ∧
      (runLoop B edges0 isResuming startFrom (pre ++ bNode :: post) s tr).1.edges
          = s.edges ∧
      (runLoop B edges0 isResuming startFrom (pre ++ bNode :: post) s tr).2.2
          = .paused bNode.id ∧
      (runLoop B edges0 isResuming startFrom (pre ++ bNode :: post) s tr).2.1.processed
          = tr.processed ++ pre.map WNode.id := by
  intro pre
  induction pre with
  | nil =>
    intro bNode post s tr hrun _ _ hres hpB
    simp only [List.nil_append]
    unfold runLoop
    rw [if_neg (by simp [hrun])]
    dsimp only
    rw [if_pos (by rw [hres, hpB]; decide)]
    exact ⟨rfl, rfl, rfl, rfl, rfl, by simp⟩
  | cons x pre' ih =>
    intro bNode post s tr hrun hpure hnp hres hpB
    simp only [List.cons_append]
    unfold runLoop
    rw [if_neg (by simp [hrun])]
    dsimp only
    rw [if_neg (by rw [hnp x (List.mem_cons_self _ _)]; simp)]
    rcases hd : dispatchNode B x { s with currentNodeId := some x.id }
        { tr with processed := tr.processed ++ [x.id] } with ⟨res, s', tr'⟩
    have hpx := dispatchNode_pure B x { s with currentNodeId := some x.id }
      { tr with processed := tr.processed ++ [x.id] }
      (hpure x (List.mem_cons_self _ _))
    rw [hd] at hpx
    dsimp only at hpx
    obtain ⟨hres1, hrun1, _, hedges1, htr1⟩ := hpx
    cases res with
    | halt => cases hres1
    | cont =>
      dsimp only
      have ihh := ih bNode post s' tr' (by rw [hrun1]; exact hrun)
        (fun nd h => hpure nd (List.mem_cons_of_mem _ h))
        (fun nd h => hnp nd (List.mem_cons_of_mem _ h)) hres hpB
      obtain ⟨i1, i2, i3, i4, i5, i6⟩ := ihh
      refine ⟨i1, i2, i3, by rw [i4, hedges1], i5, ?_⟩
      rw [i6, htr1]
      simp

/-- Running from a node strictly before the unique pause target, across a
prefix of pure nodes, halts at the target with the paused-at marker set, the
target undispatched, and the edges (with their pause flag) intact. -/
theorem executeWorkflow_pauses_at_target (B : Backend) (s : WFState)
    (startId bId : String) (sorted : List WNode) (k : Nat)
    (pre : List WNode) (bNode : WNode) (post : List WNode)
    (hrun : s.isRunning = false)
    (hsort : topoSort s.nodes s.edges = .ok sorted)
    (hfind : sorted.findIdx? (fun n => n.id == startId) = some k)
    (hdrop : sorted.drop k = pre ++ bNode :: post)
    (hpre : pre ≠ [])
    (hbid : bNode.id = bId)
    (hpure : ∀ nd ∈ pre, pureNodeType nd.type)
    (honly : ∀ e ∈ s.edges, e.pauseTruthy = true → e.target = bId)
    (hsome : ∃ e ∈ s.edges, e.target = bId ∧ e.pauseTruthy = true) :
    (executeWorkflow B (some startId) s).1.pausedAtNodeId = some bId ∧
    (executeWorkflow B (some startId) s).1.isRunning = false ∧
    (executeWorkflow B (some startId) s).1.currentNodeId = none ∧
    (executeWorkflow B (some startId) s).1.edges = s.edges ∧
    (executeWorkflow B (some startId) s).2.2 = .paused bId ∧
    bId ∉ (executeWorkflow B (some startId) s).2.1.processed := by
  obtain ⟨hnodup, _, _⟩ := topoSort_ok_facts s.nodes s.edges sorted hsort
  -- ids in the dropped suffix are still duplicate-free
  have hnodup_drop : ((sorted.drop k).map WNode.id).Nodup := by
    have hsub : (sorted.drop k).Sublist sorted := List.drop_sublist k sorted
    exact List.Nodup.sublist (hsub.map WNode.id) hnodup
  have hnodup_split : ((pre ++ bNode :: post).map WNode.id).Nodup := by
    rw [← hdrop]
    exact hnodup_drop
  have hbNotPre : ∀ nd ∈ pre, nd.id ≠ bId := by
    intro nd hmem hc
    rw [List.map_append, List.nodup_append] at hnodup_split
    have hdisj := hnodup_split.2.2
    refine hdisj (List.mem_map.2 ⟨nd, hmem, rfl⟩) ?_
    rw [List.map_cons]
    rw [hc, ← hbid]
    exact List.mem_cons_self _ _
  have hnp : ∀ nd ∈ pre, hasPauseIncoming s.edges nd.id = false := by
    intro nd hmem
    unfold hasPauseIncoming
    rcases hf : (s.edges.filter (fun e => e.target == nd.id)).find?
        (fun e => e.pauseTruthy) with _ | e
    · rw [hf]
      rfl
    · exfalso
      have hpe : e.pauseTruthy = true := List.find?_some hf
      have hme : e ∈ s.edges.filter (fun e => e.target == nd.id) :=
        List.mem_of_find?_eq_some hf
      have hmemE : e ∈ s.edges := (List.mem_filter.1 hme).1
      have htgt : e.target = nd.id := by
        have := (List.mem_filter.1 hme).2
        simpa using this
      exact hbNotPre nd hmem (htgt ▸ honly e hmemE hpe)
  have hpB : hasPauseIncoming s.edges bNode.id = true := by
    obtain ⟨e, hmemE, htgt, hpe⟩ := hsome
    unfold hasPauseIncoming
    rw [Option.isSome_iff_exists]
    have : (s.edges.filter (fun x => x.target == bNode.id)).find?
        (fun x => x.pauseTruthy) ≠ none := by
      rw [Ne, List.find?_eq_none]
      push_neg
      refine ⟨e, ?_, hpe⟩
      refine List.mem_filter.2 ⟨hmemE, ?_⟩
      simp [htgt, hbid]
    rcases hx : (s.edges.filter (fun x => x.target == bNode.id)).find?
        (fun x => x.pauseTruthy) with _ | y
    · exact absurd hx this
    · rw [hx]
      exact ⟨y, rfl⟩
  -- the start node is the head of the dropped suffix, hence in `pre`
  obtain ⟨nd0, rest0, hdrop0, hnd0⟩ := findIdx?_drop _ sorted k hfind
  have hstart_ne : startId ≠ bNode.id := by
    have hnd0id : nd0.id = startId := by simpa using hnd0
    rcases pre with _ | ⟨p0, pre'⟩
    · exact absurd rfl hpre
    · rw [List.cons_append] at hdrop
      rw [hdrop] at hdrop0
      cases hdrop0
      rw [← hnd0id, hbid]
      exact hbNotPre nd0 (List.mem_cons_self _ _)
  have hbeq : (some startId == some bNode.id) = false := by
    simp [hstart_ne]
  have hexec : executeWorkflow B (some startId) s =
      runLoop B s.edges
        (match (some startId : Option String), s.pausedAtNodeId with
          | some a, some b => a == b
          | _, _ => false)
        (some startId) (sorted.drop k)
        { s with isRunning := true, pausedAtNodeId := none } {} := by
    unfold executeWorkflow
    rw [if_neg (by simp [hrun])]
    simp only [hsort, hfind]
  rw [hexec, hdrop]
  have hres : ((match (some startId : Option String), s.pausedAtNodeId with
      | some a, some b => a == b
      | _, _ => false) && ((some startId : Option String) == some bNode.id))
        = false := by
    rw [hbeq, Bool.and_false]
  have h := runLoop_pause_at B s.edges _ (some startId) pre bNode post
    { s with isRunning := true, pausedAtNodeId := none } {} rfl hpure hnp hres hpB
  obtain ⟨i1, i2, i3, i4, i5, i6⟩ := h
  refine ⟨by rw [i1, hbid], i2, i3, i4, by rw [i5, hbid], ?_⟩
  rw [i6]
  intro hc
  simp only [List.nil_append] at hc
  obtain ⟨nd, hmem, hid⟩ := List.mem_map.1 hc
  exact hbNotPre nd hmem hid

/-- C2 (amended): pause/resume around the unique pause-flagged edge.  Part 1:
on an idle scheduler, running from a start node strictly earlier in the
topological order than the pause target B — with the nodes dispatched before B
of the non-halting types (imageInput, prompt, annotation, output), the
restriction the counterexample `c2_counterexample` forces — halts before
dispatching B, with `pausedAtNodeId = B.id`, `isRunning = false`, and the
pause flag still on the edge.  Part 2: a subsequent `executeWorkflow` with
`startFromNodeId = B.id`, invoked while `pausedAtNodeId = B.id`, dispatches B
even though the pause flag is still set. -/
theorem c2_pause_then_resume :
    (∀ (B : Backend) (s : WFState) (startId bId : String) (sorted : List WNode)
        (k : Nat) (pre : List WNode) (bNode : WNode) (post : List WNode),
      s.isRunning = false →
      topoSort s.nodes s.edges = .ok sorted →
      sorted.findIdx? (fun n => n.id == startId) = some k →
      sorted.drop k = pre ++ bNode :: post →
      pre ≠ [] →
      bNode.id = bId →
      (∀ nd ∈ pre, pureNodeType nd.type) →
      (∀ e ∈ s.edges, e.pauseTruthy = true → e.target = bId) →
      (∃ e ∈ s.edges, e.target = bId ∧ e.pauseTruthy = true) →
      (executeWorkflow B (some startId) s).1.pausedAtNodeId = some bId ∧
      (executeWorkflow B (some startId) s).1.isRunning = false ∧
      (executeWorkflow B (some startId) s).1.currentNodeId = none ∧
      (executeWorkflow B (some startId) s).1.edges = s.edges ∧
      (executeWorkflow B (some startId) s).2.2 = .paused bId ∧
      bId ∉ (executeWorkflow B (some startId) s).2.1.processed) ∧
    (∀ (B : Backend) (s : WFState) (bId : String) (sorted : List WNode) (j : Nat),
      s.isRunning = false →
      s.pausedAtNodeId = some bId →
      topoSort s.nodes s.edges = .ok sorted →
      sorted.findIdx? (fun n => n.id == bId) = some j →
      bId ∈ (executeWorkflow B (some bId) s).2.1.processed) :=
  ⟨fun B s startId bId sorted k pre bNode post h1 h2 h3 h4 h5 h6 h7 h8 h9 =>
    executeWorkflow_pauses_at_target B s startId bId sorted k pre bNode post
      h1 h2 h3 h4 h5 h6 h7 h8 h9,
   fun B s bId sorted j h1 h2 h3 h4 =>
    resume_processes_paused_node B s bId sorted j h1 h2 h3 h4⟩

/-- C2 counterexample: in `ce2State`, node `output-2` is the only node with an
incoming pause-flagged edge and the start node `nanoBanana-1` is strictly
earlier in the topological order, yet the run halts (the generation node
errors on its missing text input) before ever reaching `output-2`:
`pausedAtNodeId` ends as `null`, not `B.id`, so the claim as stated fails. -/
theorem c2_counterexample :
    (∀ e ∈ ce2State.edges, e.pauseTruthy = true → e.target = "output-2") ∧
    (∃ e ∈ ce2State.edges, e.target = "output-2" ∧ e.pauseTruthy = true) ∧
    (topoSort ce2State.nodes ce2State.edges).toOption = some [ce2Gen, ce2Out] ∧
    ce2Gen.id = "nanoBanana-1" ∧
    ce2Out.id = "output-2" ∧
    "output-2" ∉ (executeWorkflow trivBackend (some "nanoBanana-1") ce2State).2.1.processed ∧
    (executeWorkflow trivBackend (some "nanoBanana-1") ce2State).1.pausedAtNodeId = none ∧
    ¬((executeWorkflow trivBackend (some "nanoBanana-1") ce2State).1.pausedAtNodeId
        = some "output-2") := by
  exact ⟨by decide, by decide, by decide, rfl, rfl, by decide, by decide, by decide⟩

/-- C2 witness: on the pure two-node graph `imageInput-1 --(paused)-->
output-2`, running from the first node pauses at the second without
dispatching it, and resuming from it dispatches it. -/
theorem c2_witness :
    (executeWorkflow trivBackend (some "imageInput-1") w2State).1.pausedAtNodeId
      = some "output-2" ∧
    (executeWorkflow trivBackend (some "imageInput-1") w2State).1.isRunning = false ∧
    "output-2" ∉
      (executeWorkflow trivBackend (some "imageInput-1") w2State).2.1.processed ∧
    "output-2" ∈ (executeWorkflow trivBackend (some "output-2")
      (executeWorkflow trivBackend (some "imageInput-1") w2State).1).2.1.processed := by
  have h1 := c2_pause_then_resume.1 trivBackend w2State "imageInput-1" "output-2"
    [w2In, w2Out] 0 [w2In] w2Out [] rfl rfl rfl rfl (by decide) rfl
    (by intro nd h
        rw [List.mem_singleton] at h
        subst h
        exact Or.inl rfl)
    (by decide) (by decide)
  have h2 := c2_pause_then_resume.2 trivBackend
    (executeWorkflow trivBackend (some "imageInput-1") w2State).1 "output-2"
    [w2In, w2Out] 1 rfl rfl rfl rfl
  exact ⟨h1.1, h1.2.1, h1.2.2.2.2.2, h2⟩

/-- The fueled digit extractor agrees with `Nat.digits 10` when the fuel
covers the number. -/
theorem natDigitsAux_eq (fuel : Nat) :
    ∀ n : Nat, n ≤ fuel → natDigitsAux fuel n = Nat.digits 10 n := by
  induction fuel with
  | zero =>
    intro n hn
    interval_cases n
    rw [Nat.digits_zero]
    rfl
  | succ fuel ih =>
    intro n hn
    cases n with
    | zero =>
      rw [Nat.digits_zero]
      rfl
    | succ m =>
      show (m + 1) % 10 :: natDigitsAux fuel ((m + 1) / 10) = _
      rw [Nat.digits_def' (by norm_num : 1 < 10) (Nat.succ_pos m)]
      congr 1
      refine ih _ ?_
      have := Nat.div_lt_self (Nat.succ_pos m) (by norm_num : 1 < 10)
      omega

/-- `natDigits` is `Nat.digits 10`. -/
theorem natDigits_eq_digits (n : Nat) : natDigits n = Nat.digits 10 n :=
  natDigitsAux_eq n n (le_refl n)

/-- Digit characters of actual digits are decimal-digit characters. -/
theorem isDigit10_digitChar (d : Nat) (hd : d < 10) :
    isDigit10 (Nat.digitChar d) = true := by
  interval_cases d <;> decide

/-- Digit characters of actual digits are not letters. -/
theorem not_isAsciiLetter_digitChar (d : Nat) (hd : d < 10) :
    isAsciiLetter (Nat.digitChar d) = false := by
  interval_cases d <;> decide

/-- The numeric value of a digit's character. -/
theorem digitVal_digitChar (d : Nat) (hd : d < 10) :
    (Nat.digitChar d).toNat - '0'.toNat = d := by
  interval_cases d <;> decide

/-- The decimal string of `n` consists of digit characters only. -/
theorem natStr_all_digits (n : Nat) : (natStr n).data.all isDigit10 = true := by
  unfold natStr
  by_cases h : n = 0
  · rw [if_pos h]
    decide
  · rw [if_neg h]
    show ((natDigits n).reverse.map Nat.digitChar).all isDigit10 = true
    rw [List.all_eq_true]
    intro c hc
    obtain ⟨d, hd, hdc⟩ := List.mem_map.1 hc
    rw [← hdc]
    refine isDigit10_digitChar d ?_
    rw [natDigits_eq_digits] at hd
    exact Nat.digits_lt_base (by norm_num) (List.mem_reverse.1 hd)

/-- The decimal string of `n` is nonempty. -/
theorem natStr_ne_nil (n : Nat) : (natStr n).data ≠ [] := by
  unfold natStr
  by_cases h : n = 0
  · rw [if_pos h]
    decide
  · rw [if_neg h]
    show ((natDigits n).reverse.map Nat.digitChar) ≠ []
    simp only [ne_eq, List.map_eq_nil, List.reverse_eq_nil_iff]
    rw [natDigits_eq_digits]
    exact Nat.digits_ne_nil_iff_ne_zero.2 h

/-- Parsing the rendered digit characters recovers the number. -/
theorem parseDigits_natStr (n : Nat) : parseDigits (natStr n).data = n := by
  have key : ∀ l : List Nat, (∀ d ∈ l, d < 10) →
      parseDigits (l.reverse.map Nat.digitChar) = Nat.ofDigits 10 l := by
    intro l
    induction l with
    | nil => intro _; rfl
    | cons d rest ih =>
      intro hlt
      rw [List.reverse_cons, List.map_append]
      unfold parseDigits
      rw [List.foldl_append]
      show 10 * parseDigits (rest.reverse.map Nat.digitChar) +
        ((Nat.digitChar d).toNat - '0'.toNat) = _
      rw [ih (fun x hx => hlt x (List.mem_cons_of_mem _ hx)),
        digitVal_digitChar d (hlt d (List.mem_cons_self _ _)),
        Nat.ofDigits_cons]
      ring
  unfold natStr
  by_cases h : n = 0
  · rw [if_pos h, h]
    decide
  · rw [if_neg h]
    show parseDigits ((natDigits n).reverse.map Nat.digitChar) = n
    rw [natDigits_eq_digits,
      key _ (fun d hd => Nat.digits_lt_base (by norm_num) hd),
      Nat.ofDigits_digits]

/-- All seven node-type names are nonempty strings of ASCII letters. -/
theorem typeName_letters (t : NodeType) :
    t.name.data ≠ [] ∧ t.name.data.all isAsciiLetter = true := by
  cases t <;> exact ⟨by decide, by decide⟩

/-- `takeWhile` and `dropWhile` across a letters-then-dash split. -/
theorem takeWhile_letters_append (l1 : List Char) (l2 : List Char)
    (h1 : l1.all isAsciiLetter = true) (h2 : isAsciiLetter '-' = false) :
    (l1 ++ '-' :: l2).takeWhile isAsciiLetter = l1 ∧
    (l1 ++ '-' :: l2).dropWhile isAsciiLetter = '-' :: l2 := by
  induction l1 with
  | nil =>
    simp only [List.nil_append]
    constructor
    · rw [List.takeWhile_cons_of_neg (by simp [h2])]
    · rw [List.dropWhile_cons_of_neg (by simp [h2])]
  | cons c rest ih =>
    rw [List.all_cons, Bool.and_eq_true] at h1
    obtain ⟨hc, hrest⟩ := h1
    obtain ⟨iht, ihd⟩ := ih hrest
    constructor
    · rw [List.cons_append, List.takeWhile_cons_of_pos (by simp [hc]), iht]
    · rw [List.cons_append, List.dropWhile_cons_of_pos (by simp [hc]), ihd]

/-- The suffix regex matches the generated ids and extracts the suffix. -/
theorem matchSuffix_mkNodeId (t : NodeType) (n : Nat) :
    matchSuffix (mkNodeId t n) = some n := by
  obtain ⟨hne, hletters⟩ := typeName_letters t
  have hdata : (mkNodeId t n).data = t.name.data ++ '-' :: (natStr n).data := by
    unfold mkNodeId
    rw [String.data_append, String.data_append, List.append_assoc]
    rfl
  obtain ⟨htake, hdrop⟩ :=
    takeWhile_letters_append t.name.data (natStr n).data hletters (by decide)
  unfold matchSuffix
  rw [hdata]
  dsimp only
  rw [htake, hdrop]
  rw [if_neg (by simpa using hne)]
  simp [natStr_ne_nil n, natStr_all_digits n, parseDigits_natStr n]

theorem nodesOK_mono {ns : List WNode} {c c' : Nat} (h : nodesOK ns c)
    (hc : c ≤ c') : nodesOK ns c' :=
  ⟨h.1, fun nd hnd v hv => le_trans (h.2 nd hnd v hv) hc⟩

theorem nodesOK_sublist {ns' ns : List WNode} {c : Nat} (hs : ns'.Sublist ns)
    (h : nodesOK ns c) : nodesOK ns' c :=
  ⟨List.Nodup.sublist (hs.map WNode.id) h.1,
   fun nd hnd v hv => h.2 nd (hs.mem hnd) v hv⟩

theorem nodesOK_map_id_preserving {ns : List WNode} {c : Nat}
    (g : WNode → WNode) (hg : ∀ nd, (g nd).id = nd.id) (h : nodesOK ns c) :
    nodesOK (ns.map g) c := by
  have hmap : (ns.map g).map WNode.id = ns.map WNode.id := by
    rw [List.map_map]
    exact List.map_congr_left (fun nd _ => hg nd)
  refine ⟨hmap ▸ h.1, ?_⟩
  intro nd hnd v hv
  obtain ⟨nd0, hnd0, rfl⟩ := List.mem_map.1 hnd
  rw [hg nd0] at hv
  exact h.2 nd0 hnd0 v hv

/-- The fresh suffix `addNode` picks strictly exceeds both the counter and the
maximum suffix among current nodes. -/
theorem addNode_suffix (s : WFState) (t : NodeType) (p : Pos) :
    (addNode t p s).1 = mkNodeId t (addNode t p s).2.nodeIdCounter ∧
    matchSuffix (addNode t p s).1 = some (addNode t p s).2.nodeIdCounter ∧
    s.nodeIdCounter < (addNode t p s).2.nodeIdCounter ∧
    findMaxNodeSuffix s.nodes < (addNode t p s).2.nodeIdCounter := by
  refine ⟨rfl, ?_, ?_, ?_⟩
  · exact matchSuffix_mkNodeId t _
  · show s.nodeIdCounter <
      max (max (s.nodeIdCounter + 1) (findMaxNodeSuffix s.nodes + 1)) 1
    have := le_max_left (s.nodeIdCounter + 1) (findMaxNodeSuffix s.nodes + 1)
    have := le_max_left (max (s.nodeIdCounter + 1) (findMaxNodeSuffix s.nodes + 1)) 1
    omega
  · show findMaxNodeSuffix s.nodes <
      max (max (s.nodeIdCounter + 1) (findMaxNodeSuffix s.nodes + 1)) 1
    have := le_max_right (s.nodeIdCounter + 1) (findMaxNodeSuffix s.nodes + 1)
    have := le_max_left (max (s.nodeIdCounter + 1) (findMaxNodeSuffix s.nodes + 1)) 1
    omega

/-- The id `addNode` returns belongs to no current node. -/
theorem addNode_id_fresh (s : WFState) (t : NodeType) (p : Pos) :
    ∀ nd ∈ s.nodes, nd.id ≠ (addNode t p s).1 := by
  intro nd hnd hc
  obtain ⟨hid, hsuf, _, hmax⟩ := addNode_suffix s t p
  have : matchSuffix nd.id = some (addNode t p s).2.nodeIdCounter := by
    rw [hc, hsuf]
  exact absurd (findMaxNodeSuffix_ge s.nodes nd _ hnd this) (by omega)

/-- Resolving the paste mapping at the `j`-th clipboard node yields the
`j`-th fresh id, provided clipboard ids are duplicate-free. -/
theorem pasteLookup_enumFrom :
    ∀ (l : List WNode) (k c : Nat) (j : Nat) (hj : j < l.length),
      (l.map WNode.id).Nodup →
      pasteLookup ((List.enumFrom k l).map
          (fun p => (p.2.id, mkNodeId p.2.type (c + p.1 + 1))))
        ((l.get ⟨j, hj⟩).id)
        = mkNodeId (l.get ⟨j, hj⟩).type (c + k + j + 1) := by
  intro l
  induction l with
  | nil =>
    intro k c j hj
    simp at hj
  | cons x rest ih =>
    intro k c j hj hnd
    rw [List.enumFrom_cons]
    cases j with
    | zero =>
      show pasteLookup ((x.id, mkNodeId x.type (c + k + 1)) :: _) x.id = _
      unfold pasteLookup
      rw [List.find?_cons_of_pos _ (by simp)]
      rfl
    | succ j =>
      have hget : (x :: rest).get ⟨j + 1, hj⟩ = rest.get ⟨j, by simpa using hj⟩ := rfl
      rw [hget]
      have hne : x.id ≠ (rest.get ⟨j, by simpa using hj⟩).id := by
        rw [List.map_cons, List.nodup_cons] at hnd
        intro hc
        exact hnd.1 (hc ▸ List.mem_map.2 ⟨_, List.get_mem _ _ _, rfl⟩)
      show pasteLookup ((x.id, mkNodeId x.type (c + k + 1)) :: _) _ = _
      unfold pasteLookup
      rw [List.find?_cons_of_neg _ (by simpa using hne)]
      have hres := ih (k + 1) c j (by simpa using hj)
        (by rw [List.map_cons, List.nodup_cons] at hnd; exact hnd.2)
      unfold pasteLookup at hres
      rw [hres]
      congr 1
      omega

/-- `pasteIdMapping` written through `enumFrom`. -/
theorem pasteIdMapping_eq (l : List WNode) (c : Nat) :
    pasteIdMapping l c = (List.enumFrom 0 l).map
      (fun p => (p.2.id, mkNodeId p.2.type (c + p.1 + 1))) := by
  unfold pasteIdMapping
  show (List.enumFrom 0 l).map _ = _
  refine List.map_congr_left ?_
  intro p _
  rcases p with ⟨i, nd⟩
  rfl

/-- The fresh id of the `j`-th pasted node. -/
theorem pasteLookup_mapping (l : List WNode) (c : Nat) (j : Nat)
    (hj : j < l.length) (hnd : (l.map WNode.id).Nodup) :
    pasteLookup (pasteIdMapping l c) ((l.get ⟨j, hj⟩).id)
      = mkNodeId (l.get ⟨j, hj⟩).type (c + j + 1) := by
  rw [pasteIdMapping_eq]
  have := pasteLookup_enumFrom l 0 c j hj hnd
  simpa using this

/-- The explicit shape of a non-trivial paste. -/
theorem pasteNodes_eq (off : Pos) (st : WFState) (clip : ClipboardData)
    (hclip : st.clipboard = some clip) (hne : clip.nodes ≠ []) :
    pasteNodes off st = { st with
      nodes := st.nodes.map (fun n => { n with selected := false }) ++
        clip.nodes.map (fun nd => { nd with
          id := pasteLookup (pasteIdMapping clip.nodes st.nodeIdCounter) nd.id,
          position := nd.position + off, selected := true }),
      edges := st.edges ++ clip.edges.map (fun e => { e with
          id := edgeIdOf
            (pasteLookup (pasteIdMapping clip.nodes st.nodeIdCounter) e.source)
            (pasteLookup (pasteIdMapping clip.nodes st.nodeIdCounter) e.target)
            e.sourceHandle e.targetHandle,
          source := pasteLookup (pasteIdMapping clip.nodes st.nodeIdCounter) e.source,
          target := pasteLookup (pasteIdMapping clip.nodes st.nodeIdCounter) e.target }),
      nodeIdCounter := st.nodeIdCounter + clip.nodes.length,
      hasUnsavedChanges := true } := by
  unfold pasteNodes
  rw [hclip]
  dsimp only
  rw [if_neg (by simp [List.isEmpty_iff, hne])]

/-- The explicit shape of a non-trivial copy. -/
theorem copySelectedNodes_eq (st : WFState)
    (hne : st.nodes.filter (fun n => n.selected) ≠ []) :
    copySelectedNodes st = { st with clipboard := some (ClipboardData.mk
      (st.nodes.filter (fun n => n.selected))
      (st.edges.filter (fun e =>
        e.source ∈ (st.nodes.filter (fun n => n.selected)).map (·.id) &&
        e.target ∈ (st.nodes.filter (fun n => n.selected)).map (·.id)))) } := by
  unfold copySelectedNodes
  dsimp only
  rw [if_neg (by simp [List.isEmpty_iff, hne])]

/-- The id of the `j`-th pasted node. -/
theorem pasted_ids_get (clip : List WNode) (c : Nat) (g : WNode → WNode)
    (hg : ∀ nd, (g nd).id = pasteLookup (pasteIdMapping clip c) nd.id)
    (hnd : (clip.map WNode.id).Nodup) (j : Nat) (hj : j < clip.length)
    (hj' : j < (clip.map g).length) :
    ((clip.map g).get ⟨j, hj'⟩).id
      = mkNodeId (clip.get ⟨j, hj⟩).type (c + j + 1) := by
  rw [List.get_map, hg]
  exact pasteLookup_mapping clip c j hj hnd

/-- Every pasted node id has the generated shape with suffix in
`(c, c + length]`. -/
theorem pasted_ids_shape (clip : List WNode) (c : Nat) (g : WNode → WNode)
    (hg : ∀ nd, (g nd).id = pasteLookup (pasteIdMapping clip c) nd.id)
    (hnd : (clip.map WNode.id).Nodup) :
    ∀ nd ∈ clip.map g, ∃ t n, nd.id = mkNodeId t n ∧ c < n ∧
      n ≤ c + clip.length := by
  intro nd hmem
  obtain ⟨⟨j, hj'⟩, hget⟩ := List.mem_iff_get.1 hmem
  have hj : j < clip.length := by simpa using hj'
  refine ⟨(clip.get ⟨j, hj⟩).type, c + j + 1, ?_, by omega, by omega⟩
  rw [← hget]
  exact pasted_ids_get clip c g hg hnd j hj hj'

/-- Pasted node ids are pairwise distinct. -/
theorem pasted_ids_nodup (clip : List WNode) (c : Nat) (g : WNode → WNode)
    (hg : ∀ nd, (g nd).id = pasteLookup (pasteIdMapping clip c) nd.id)
    (hnd : (clip.map WNode.id).Nodup) :
    ((clip.map g).map WNode.id).Nodup := by
  rw [List.nodup_iff_injective_get]
  intro i j heq
  have hlen : ((clip.map g).map WNode.id).length = clip.length := by simp
  have hi : (i : Nat) < clip.length := by omega
  have hj : (j : Nat) < clip.length := by omega
  have hi' : (i : Nat) < (clip.map g).length := by simpa using hi
  have hj' : (j : Nat) < (clip.map g).length := by simpa using hj
  have hgi : ((clip.map g).map WNode.id).get i = ((clip.map g).get ⟨i, hi'⟩).id := by
    rw [List.get_map]
  have hgj : ((clip.map g).map WNode.id).get j = ((clip.map g).get ⟨j, hj'⟩).id := by
    rw [List.get_map]
  rw [hgi, hgj, pasted_ids_get clip c g hg hnd i hi hi',
    pasted_ids_get clip c g hg hnd j hj hj'] at heq
  have h1 := matchSuffix_mkNodeId (clip.get ⟨i, hi⟩).type (c + i + 1)
  rw [heq] at h1
  have h2 := matchSuffix_mkNodeId (clip.get ⟨j, hj⟩).type (c + j + 1)
  rw [h1] at h2
  have h3 : c + (i : Nat) + 1 = c + (j : Nat) + 1 := Option.some.inj h2
  exact Fin.ext (by omega)

/-- Every store operation preserves the session invariant. -/
theorem sessInv_applyOp (s : Session) (op : Op) (h : SessInv s) :
    SessInv (applyOp s op) := by
  obtain ⟨hn, hh, hc, hr⟩ := h
  cases op with
  | opAddNode t p =>
    show SessInv ⟨(addNode t p s.st).2, (addNode t p s.st).1 :: s.returnedIds⟩
    obtain ⟨hid, hsuf, hcnt, hmax⟩ := addNode_suffix s.st t p
    have hcle : s.st.nodeIdCounter ≤ (addNode t p s.st).2.nodeIdCounter :=
      le_of_lt hcnt
    have hnodes : (addNode t p s.st).2.nodes = s.st.nodes ++
        [{ id := (addNode t p s.st).1, type := t, position := p,
           data := createDefaultNodeData t,
           width := (defaultDimensions t).1,
           height := (defaultDimensions t).2 }] := rfl
    refine ⟨⟨?_, ?_⟩, ?_, ?_, ?_⟩
    · rw [hnodes, List.map_append]
      refine List.Nodup.append hn.1 (by simp) ?_
      intro x hx hx2
      simp only [List.map_cons, List.map_nil, List.mem_singleton] at hx2
      obtain ⟨nd, hnd, hndid⟩ := List.mem_map.1 hx
      exact addNode_id_fresh s.st t p nd hnd (by rw [hndid, hx2])
    · intro nd hnd v hv
      rw [hnodes] at hnd
      rcases List.mem_append.1 hnd with hold | hnew
      · exact le_trans (hn.2 nd hold v hv) hcle
      · have : nd.id = (addNode t p s.st).1 := by
          simp only [List.mem_singleton] at hnew
          rw [hnew]
        rw [this, hsuf] at hv
        cases hv
        exact le_refl _
    · intro hs hmem
      exact nodesOK_mono (hh hs hmem) hcle
    · intro clip hclip
      exact nodesOK_mono (hc clip hclip) hcle
    · intro id hmem
      rcases List.mem_cons.1 hmem with rfl | hmem'
      · exact ⟨t, _, hid, le_refl _⟩
      · obtain ⟨t', n', heq, hle⟩ := hr id hmem'
        exact ⟨t', n', heq, le_trans hle hcle⟩
  | opRemoveNode nid =>
    show SessInv ⟨removeNode nid s.st, s.returnedIds⟩
    exact ⟨nodesOK_sublist (List.filter_sublist _) hn, hh, hc, hr⟩
  | opSelectNode nid v =>
    show SessInv ⟨selectNode nid v s.st, s.returnedIds⟩
    refine ⟨?_, hh, hc, hr⟩
    exact nodesOK_map_id_preserving _
      (fun nd => by by_cases hb : nd.id == nid <;> simp [selectNode, hb]) hn
  | opConnect c =>
    exact ⟨hn, hh, hc, hr⟩
  | opTogglePause eid =>
    exact ⟨hn, hh, hc, hr⟩
  | opCopy =>
    show SessInv ⟨copySelectedNodes s.st, s.returnedIds⟩
    by_cases hne : s.st.nodes.filter (fun n => n.selected) = []
    · have : copySelectedNodes s.st = s.st := by
        unfold copySelectedNodes
        dsimp only
        rw [if_pos (by simp [List.isEmpty_iff, hne])]
      rw [this]
      exact ⟨hn, hh, hc, hr⟩
    · rw [copySelectedNodes_eq s.st hne]
      refine ⟨hn, hh, ?_, hr⟩
      intro clip hclip
      cases hclip
      exact nodesOK_sublist (List.filter_sublist _) hn
  | opPaste off =>
    show SessInv ⟨pasteNodes off s.st, s.returnedIds⟩
    rcases hclip : s.st.clipboard with _ | clip
    · have : pasteNodes off s.st = s.st := by
        unfold pasteNodes
        rw [hclip]
      rw [this]
      exact ⟨hn, hh, hc, hr⟩
    · by_cases hne : clip.nodes = []
      · have : pasteNodes off s.st = s.st := by
          unfold pasteNodes
          rw [hclip]
          dsimp only
          rw [if_pos (by simp [List.isEmpty_iff, hne])]
        rw [this]
        exact ⟨hn, hh, hc, hr⟩
      · rw [pasteNodes_eq off s.st clip hclip hne]
        have hclipOK : nodesOK clip.nodes s.st.nodeIdCounter := hc clip hclip
        have hcle : s.st.nodeIdCounter ≤ s.st.nodeIdCounter + clip.nodes.length :=
          Nat.le_add_right _ _
        set g : WNode → WNode := fun nd => { nd with
          id := pasteLookup (pasteIdMapping clip.nodes s.st.nodeIdCounter) nd.id,
          position := nd.position + off, selected := true } with hg
        have hgid : ∀ nd, (g nd).id =
            pasteLookup (pasteIdMapping clip.nodes s.st.nodeIdCounter) nd.id :=
          fun nd => rfl
        have holdOK : nodesOK (s.st.nodes.map (fun n => { n with selected := false }))
            s.st.nodeIdCounter :=
          nodesOK_map_id_preserving _ (fun nd => rfl) hn
        refine ⟨⟨?_, ?_⟩, ?_, ?_, ?_⟩
        · rw [List.map_append]
          refine List.Nodup.append holdOK.1
            (pasted_ids_nodup clip.nodes _ g hgid hclipOK.1) ?_
          intro x hx hx2
          obtain ⟨nd1, hnd1, hid1⟩ := List.mem_map.1 hx
          obtain ⟨nd2, hnd2, hid2⟩ := List.mem_map.1 hx2
          obtain ⟨t', n', hshape, hlt, _⟩ :=
            pasted_ids_shape clip.nodes _ g hgid hclipOK.1 nd2 hnd2
          have hms : matchSuffix x = some n' := by
            rw [← hid2, hshape]
            exact matchSuffix_mkNodeId t' n'
          have := holdOK.2 nd1 hnd1 n' (hid1 ▸ hms)
          omega
        · intro nd hnd v hv
          rcases List.mem_append.1 hnd with hold | hnew
          · obtain ⟨nd0, hnd0, rfl⟩ := List.mem_map.1 hold
            exact le_trans (hn.2 nd0 hnd0 v (by simpa using hv)) hcle
          · obtain ⟨t', n', hshape, _, hle⟩ :=
              pasted_ids_shape clip.nodes _ g hgid hclipOK.1 nd hnew
            rw [hshape, matchSuffix_mkNodeId] at hv
            cases hv
            exact hle
        · intro hs hmem
          exact nodesOK_mono (hh hs hmem) hcle
        · intro clip' hclip'
          cases hclip'.symm.trans hclip
          exact nodesOK_mono hclipOK hcle
        · intro id hmem
          obtain ⟨t', n', heq, hle⟩ := hr id hmem
          exact ⟨t', n', heq, le_trans hle hcle⟩
  | opLoad wf cfg =>
    show SessInv ⟨loadWorkflow wf cfg s.st, s.returnedIds⟩
    have hcle : s.st.nodeIdCounter ≤ (loadWorkflow wf cfg s.st).nodeIdCounter :=
      le_max_left _ _
    refine ⟨⟨?_, ?_⟩, ?_, ?_, ?_⟩
    · show ((deduplicateWorkflowNodes wf.nodes).map WNode.id).Nodup
      rw [deduplicateWorkflowNodes_eq_rec]
      exact dedupRec_nodup wf.nodes []
    · intro nd hnd v hv
      show v ≤ max s.st.nodeIdCounter (findMaxNodeSuffix (deduplicateWorkflowNodes wf.nodes))
      have := findMaxNodeSuffix_ge (deduplicateWorkflowNodes wf.nodes) nd v hnd hv
      omega
    · intro hs hmem
      exact nodesOK_mono (hh hs hmem) hcle
    · intro clip hclip
      exact nodesOK_mono (hc clip hclip) hcle
    · intro id hmem
      obtain ⟨t', n', heq, hle⟩ := hr id hmem
      exact ⟨t', n', heq, le_trans hle hcle⟩
  | opUndo =>
    show SessInv ⟨undo s.st, s.returnedIds⟩
    unfold undo
    by_cases hpos : s.st.historyIndex > 0
    · rw [if_pos hpos]
      rcases hg : s.st.historyStack.get? (s.st.historyIndex - 1).toNat with _ | hs
      · simp only [hg]
        exact ⟨hn, hh, hc, hr⟩
      · simp only [hg]
        have hmem : hs ∈ s.st.historyStack := List.get?_mem hg
        exact ⟨hh hs hmem, hh, hc, hr⟩
    · rw [if_neg hpos]
      exact ⟨hn, hh, hc, hr⟩
  | opRedo =>
    show SessInv ⟨redo s.st, s.returnedIds⟩
    unfold redo
    by_cases hpos : s.st.historyIndex < (s.st.historyStack.length : Int) - 1
    · rw [if_pos hpos]
      rcases hg : s.st.historyStack.get? (s.st.historyIndex + 1).toNat with _ | hs
      · simp only [hg]
        exact ⟨hn, hh, hc, hr⟩
      · simp only [hg]
        have hmem : hs ∈ s.st.historyStack := List.get?_mem hg
        exact ⟨hh hs hmem, hh, hc, hr⟩
    · rw [if_neg hpos]
      exact ⟨hn, hh, hc, hr⟩
  | opSave =>
    show SessInv ⟨saveToHistory s.st, s.returnedIds⟩
    refine ⟨hn, ?_, hc, hr⟩
    intro hs hmem
    rw [(saveToHistory_stack s.st).1] at hmem
    have hmem' : hs ∈ s.st.historyStack.take (s.st.historyIndex + 1).toNat
        ++ [(⟨s.st.nodes, s.st.edges, s.st.groups⟩ : HistoryState)] := by
      by_cases hlong : (s.st.historyStack.take (s.st.historyIndex + 1).toNat
          ++ [(⟨s.st.nodes, s.st.edges, s.st.groups⟩ : HistoryState)]).length > 50
      · rw [if_pos hlong] at hmem
        exact List.mem_of_mem_drop hmem
      · rw [if_neg hlong] at hmem
        exact hmem
    rcases List.mem_append.1 hmem' with htake | hsnap
    · exact hh hs (List.mem_of_mem_take htake)
    · have : hs = ⟨s.st.nodes, s.st.edges, s.st.groups⟩ := by simpa using hsnap
      rw [this]
      exact hn

/-- Any session from the initial store satisfies the invariant. -/
theorem sessInv_runOps (ops : List Op) : SessInv (runOps ops) := by
  have hinit : SessInv initSession := by
    refine ⟨⟨by simp [initSession], ?_⟩, ?_, ?_, ?_⟩
    · intro nd hnd
      simp [initSession] at hnd
    · intro hs hmem
      simp [initSession] at hmem
    · intro clip hclip
      simp [initSession] at hclip
    · intro id hmem
      simp [initSession] at hmem
  show SessInv (ops.foldl applyOp initSession)
  suffices hgen : ∀ (l : List Op) (acc : Session), SessInv acc →
      SessInv (l.foldl applyOp acc) from hgen ops initSession hinit
  intro l
  induction l with
  | nil => intro acc hacc; exact hacc
  | cons op rest ih =>
    intro acc hacc
    exact ih (applyOp acc op) (sessInv_applyOp acc op hacc)


/-- C5: in every session (any sequence of store operations applied to the
initial state), `addNode` returns an id distinct from the id of every node
currently in the graph and from every id previously returned by `addNode` in
that session (including ids of nodes since deleted), and the allocated numeric
suffix strictly exceeds both the internal counter and the maximum numeric
suffix among current node ids. -/
theorem c5_addNode_fresh (ops : List Op) (t : NodeType) (p : Pos) :
    (∀ nd ∈ (runOps ops).st.nodes, nd.id ≠ (addNode t p (runOps ops).st).1) ∧
    (addNode t p (runOps ops).st).1 ∉ (runOps ops).returnedIds ∧
    ∃ n, matchSuffix (addNode t p (runOps ops).st).1 = some n ∧
      (runOps ops).st.nodeIdCounter < n ∧
      findMaxNodeSuffix (runOps ops).st.nodes < n := by
  obtain ⟨_, _, _, hr⟩ := sessInv_runOps ops
  obtain ⟨hid, hsuf, hcnt, hmax⟩ := addNode_suffix (runOps ops).st t p
  refine ⟨addNode_id_fresh (runOps ops).st t p, ?_, _, hsuf, hcnt, hmax⟩
  intro hmem
  obtain ⟨t', n', heq, hle⟩ := hr _ hmem
  have h1 : matchSuffix (addNode t p (runOps ops).st).1 = some n' := by
    rw [heq]
    exact matchSuffix_mkNodeId t' n'
  rw [hsuf] at h1
  have h2 := Option.some.inj h1
  omega

/-- C6: from any reachable store state with a non-empty selection,
`copySelectedNodes` followed by `pasteNodes offset` yields exactly the original
nodes deselected plus remapped copies of the selected nodes (each marked
selected and moved by the offset); the edge list gains exactly the remapped
copies of the edges whose source and target were both selected (edges with an
unselected endpoint produce no new edge); and the pasted ids are pairwise
distinct and disjoint from all pre-paste node ids. -/
theorem c6_copy_paste_contract (ops : List Op) (off : Pos)
    (hne : (runOps ops).st.nodes.filter (fun n => n.selected) ≠ []) :
    let s := (runOps ops).st
    let sel := s.nodes.filter (fun n => n.selected)
    let mapping := pasteIdMapping sel s.nodeIdCounter
    let s2 := pasteNodes off (copySelectedNodes s)
    s2.nodes = s.nodes.map (fun n => { n with selected := false }) ++
      sel.map (fun nd => { nd with
        id := pasteLookup mapping nd.id,
        position := nd.position + off, selected := true }) ∧
    s2.edges = s.edges ++ (s.edges.filter (fun e =>
        e.source ∈ sel.map (·.id) && e.target ∈ sel.map (·.id))).map
      (fun e => { e with
        id := edgeIdOf (pasteLookup mapping e.source)
          (pasteLookup mapping e.target) e.sourceHandle e.targetHandle,
        source := pasteLookup mapping e.source,
        target := pasteLookup mapping e.target }) ∧
    (∀ nd ∈ sel.map (fun nd => { nd with
        id := pasteLookup mapping nd.id,
        position := nd.position + off, selected := true }),
      nd.id ∉ s.nodes.map WNode.id) ∧
    ((sel.map (fun nd => { nd with
        id := pasteLookup mapping nd.id,
        position := nd.position + off, selected := true })).map WNode.id).Nodup := by
  intro s sel mapping s2
  obtain ⟨hn, _, _, _⟩ := sessInv_runOps ops
  have hselOK : nodesOK sel s.nodeIdCounter :=
    nodesOK_sublist (List.filter_sublist _) hn
  have hclip : (copySelectedNodes s).clipboard = some (ClipboardData.mk sel
      (s.edges.filter (fun e =>
        e.source ∈ sel.map (·.id) && e.target ∈ sel.map (·.id)))) := by
    rw [copySelectedNodes_eq s hne]
  have hcopy := copySelectedNodes_eq s hne
  have h2 := pasteNodes_eq off (copySelectedNodes s)
    (ClipboardData.mk sel
      (s.edges.filter (fun e =>
        e.source ∈ sel.map (·.id) && e.target ∈ sel.map (·.id))))
    hclip hne
  refine ⟨?_, ?_, ?_, ?_⟩
  · show (pasteNodes off (copySelectedNodes s)).nodes = _
    rw [h2, hcopy]
  · show (pasteNodes off (copySelectedNodes s)).edges = _
    rw [h2, hcopy]
  · intro nd hmem hbad
    obtain ⟨t', n', hshape, hlt, _⟩ := pasted_ids_shape sel s.nodeIdCounter
      (fun nd => { nd with
        id := pasteLookup mapping nd.id,
        position := nd.position + off, selected := true })
      (fun nd => rfl) hselOK.1 nd hmem
    obtain ⟨nd0, hnd0, hid0⟩ := List.mem_map.1 hbad
    have hms : matchSuffix nd0.id = some n' := by
      rw [hid0, hshape]
      exact matchSuffix_mkNodeId t' n'
    have := hn.2 nd0 hnd0 n' hms
    have heqc : s.nodeIdCounter = (runOps ops).st.nodeIdCounter := rfl
    omega
  · exact pasted_ids_nodup sel s.nodeIdCounter
      (fun nd => { nd with
        id := pasteLookup mapping nd.id,
        position := nd.position + off, selected := true })
      (fun nd => rfl) hselOK.1

/-- C6 witness: a concrete session (prompt node, output node, prompt selected)
on which the copy/paste contract applies; the pasted ids are duplicate-free. -/
theorem c6_witness :
    (runOps c6ops).st.nodes.filter (fun n => n.selected) ≠ [] ∧
    ((((runOps c6ops).st.nodes.filter (fun n => n.selected)).map (fun nd =>
      { nd with
        id := pasteLookup (pasteIdMapping
          ((runOps c6ops).st.nodes.filter (fun n => n.selected))
          (runOps c6ops).st.nodeIdCounter) nd.id,
        position := nd.position + c6off, selected := true })).map WNode.id).Nodup :=
  ⟨by decide, (c6_copy_paste_contract c6ops c6off (by decide)).2.2.2⟩

end NodeBanana
